import Mathlib

/-!
Verification of the `patty-pr-minder` repository's GitHub API client and PR-URL
utilities, as a shallow embedding in Lean 4.

Embedded sources:
* the complete GitHub client variant (the one with retry, backoff and
  rate-limit handling): `createGitHubClient`, `attemptRequest`, `shouldRetry`,
  `nextBackoffDelay`, `respectRateLimit`, `updateRateLimitFromHeaders`,
  `sanitizeIdentifier`, `sanitizePRNumber`, `buildPRPath`, `parseNumber`;
* the PR-URL utilities `sanitizeUrl`, `isValidGitHubPRUrl`,
  `parseGitHubPRUrl`, `matchPRComponents`, `normalizeCandidateUrl`,
  `extractPRUrlsFromMessage` (the variant without `stripMessageWrapping`).

Modelling conventions:
* JavaScript numbers that hold integral quantities (HTTP statuses, quota
  counters, epoch milliseconds) are modelled as `Int` or `Nat`.
* The error class hierarchy (`GitHubRequestError` and its six subclasses) is
  modelled as a single structure with a `kind` tag recording the dynamic
  class, following the tagged-variant reading of the hierarchy.
* The network is modelled by an environment `Nat → NetworkEvent T` giving, for
  each successive `fetch` invocation (numbered by a running counter), the
  classified observable outcome of that invocation.  `Date.now()` is a clock
  carried in the client state; `delay`/`setTimeout` waits advance the clock by
  the waited amount and are recorded in an event log.
* Header values fed to `parseNumber` are modelled after the result of the
  JavaScript `Number` coercion on the raw header string: a present header is
  either a finite number (`JsNumLit.num`) or not a number (`JsNumLit.nan`).
* `parseInt` on a captured digit run and the template rendering of its result
  go through an explicit IEEE-754 binary64 model: `roundToDouble` (exact value
  below `2 ^ 53`, round-to-nearest-ties-to-even above, `+Infinity` from
  `2 ^ 1024`) and `jsNumberToString` (ECMAScript `Number::toString(10)`:
  shortest round-tripping decimal, plain notation below `10 ^ 21`,
  exponential notation above, `"Infinity"`).
-/

set_option maxHeartbeats 1000000
set_option maxRecDepth 16000

namespace GithubClient

/-- Dynamic class of a thrown request error: `generic` is the base class
`GitHubRequestError` itself, the other tags are its six subclasses. -/
inductive ErrorKind where
  | generic
  | unauthorized
  | forbidden
  | notFound
  | unprocessableEntity
  | serverError
  | timeout
deriving Repr, DecidableEq

/-- The `GitHubRequestError` class (and its subclasses, distinguished by
`kind`).  The `body` payload is not modelled: no control flow in the client
depends on it. -/
structure GitHubRequestError where
  kind : ErrorKind
  message : String
  status : Int
  statusText : String
  documentationUrl : Option String
deriving Repr, DecidableEq

/-- `RateLimitInfo` from the source. -/
structure RateLimitInfo where
  limit : Int
  remaining : Int
  reset : Int
  used : Int
deriving Repr, DecidableEq

/-- The observable content of a rate-limit response header after the JS
`Number` coercion: `nan` when `Number(raw)` is not finite, `num n` when it is
the (integral) number `n`. -/
inductive JsNumLit where
  | nan
  | num (value : Int)
deriving Repr, DecidableEq

/-- The four `x-ratelimit-*` headers of a response; `none` means the header is
absent. -/
structure ResponseHeaders where
  limit : Option JsNumLit
  remaining : Option JsNumLit
  reset : Option JsNumLit
  used : Option JsNumLit
deriving Repr, DecidableEq

/-- A response that carries no rate-limit headers. -/
def emptyHeaders : ResponseHeaders := ⟨none, none, none, none⟩

/-- `parseNumber(value)`: `null` input gives `null`; otherwise the `Number`
coercion result is kept only when finite. -/
def parseNumber : Option JsNumLit → Option Int
  | none => none
  | some .nan => none
  | some (.num n) => some n

/-- `updateRateLimitFromHeaders(headers, state)`: the update is skipped when
any of the limit/remaining/reset headers is missing or non-numeric; `used`
defaults to `limit - remaining`. -/
def updateRateLimitFromHeaders (headers : ResponseHeaders)
    (rateLimit : Option RateLimitInfo) : Option RateLimitInfo :=
  match parseNumber headers.limit, parseNumber headers.remaining,
      parseNumber headers.reset with
  | some limit, some remaining, some reset =>
      some { limit := limit, remaining := remaining, reset := reset,
             used := (parseNumber headers.used).getD (limit - remaining) }
  | _, _, _ => rateLimit

/-- `createErrorForStatus`: maps an HTTP status to the error subclass. -/
def createErrorForStatus (status : Int) (message statusText : String)
    (documentationUrl : Option String) : GitHubRequestError :=
  if status == 401 then ⟨.unauthorized, message, status, statusText, documentationUrl⟩
  else if status == 403 then ⟨.forbidden, message, status, statusText, documentationUrl⟩
  else if status == 404 then ⟨.notFound, message, status, statusText, documentationUrl⟩
  else if status == 422 then ⟨.unprocessableEntity, message, status, statusText, documentationUrl⟩
  else if 500 ≤ status then ⟨.serverError, message, status, statusText, documentationUrl⟩
  else ⟨.generic, message, status, statusText, documentationUrl⟩

/-- `MAX_RETRIES` from the source. -/
def MAX_RETRIES : Nat := 3

/-- `BASE_BACKOFF_MS` from the source. -/
def BASE_BACKOFF_MS : Int := 1000

/-- `rateLimit && rateLimit.remaining === 0` (and the equivalent
`rateLimit?.remaining === 0`). -/
def rateLimitExhausted : Option RateLimitInfo → Bool
  | some rl => rl.remaining == 0
  | none => false

/-- `shouldRetry(error, attempt, rateLimit)`; `error = none` models the `null`
argument used for unclassified transport failures. -/
def shouldRetry (error : Option GitHubRequestError) (attempt : Nat)
    (rateLimit : Option RateLimitInfo) : Bool :=
  if MAX_RETRIES ≤ attempt then false
  else if rateLimitExhausted rateLimit then true
  else
    match error with
    | none => true
    | some e =>
      if e.kind == .unauthorized || e.kind == .notFound
          || e.kind == .unprocessableEntity then false
      else if e.kind == .forbidden then rateLimitExhausted rateLimit
      else if e.kind == .serverError || e.kind == .timeout then true
      else 500 ≤ e.status

/-- `nextBackoffDelay(attempt, rateLimit)`; `now` is the value of
`Date.now()` at the call. -/
def nextBackoffDelay (attempt : Nat) (rateLimit : Option RateLimitInfo)
    (now : Int) : Int :=
  let backoff := BASE_BACKOFF_MS * 2 ^ (attempt - 1)
  match rateLimit with
  | some rl =>
      if rl.remaining == 0 then max (rl.reset * 1000 - now) backoff else backoff
  | none => backoff

/-- `respectRateLimit(rateLimit)`, returned as the number of milliseconds the
function waits (`0` when it returns without waiting); `now` is `Date.now()`. -/
def respectRateLimit (rateLimit : Option RateLimitInfo) (now : Int) : Int :=
  match rateLimit with
  | none => 0
  | some rl =>
    if 0 < rl.remaining then 0
    else
      let delayMs := max (rl.reset * 1000 - now) BASE_BACKOFF_MS
      if 0 < delayMs then delayMs else 0

/-- The JS `String.prototype.trim`: strip whitespace from both ends. -/
def trimChars (cs : List Char) : List Char :=
  ((cs.dropWhile Char.isWhitespace).reverse.dropWhile Char.isWhitespace).reverse

/-- The character class `[A-Za-z0-9_.-]` of the identifier regex. -/
def isIdentifierChar (c : Char) : Bool :=
  c.isAlphanum || c == '_' || c == '.' || c == '-'

/-- `sanitizeIdentifier(value, field)`.  All three rejection paths throw the
base class `GitHubRequestError` (kind `generic`) with status 422. -/
def sanitizeIdentifier (value : String) (field : String) :
    Except GitHubRequestError String :=
  if value == "" then
    .error ⟨.generic, "Invalid " ++ field ++ " provided.", 422,
      "Unprocessable Entity", none⟩
  else
    let sanitized := String.mk (trimChars value.toList)
    if sanitized.length == 0 then
      .error ⟨.generic, field ++ " cannot be empty.", 422,
        "Unprocessable Entity", none⟩
    else if !(sanitized.toList.all isIdentifierChar) then
      .error ⟨.generic, field ++ " contains invalid characters.", 422,
        "Unprocessable Entity", none⟩
    else .ok sanitized

/-- `sanitizePRNumber(prNumber)`.  The JS argument is modelled as an `Int`, on
which the `Number.isInteger` half of the guard is vacuously true; the
positivity half is kept. -/
def sanitizePRNumber (prNumber : Int) : Except GitHubRequestError Int :=
  if prNumber ≤ 0 then
    .error ⟨.generic, "Pull request number must be a positive integer.", 422,
      "Unprocessable Entity", none⟩
  else .ok prNumber

/-- `buildPRPath(owner, repo, prNumber?)`. -/
def buildPRPath (owner repo : String) (prNumber : Option Int) :
    Except GitHubRequestError String :=
  match sanitizeIdentifier owner "owner" with
  | .error e => .error e
  | .ok sanitizedOwner =>
    match sanitizeIdentifier repo "repo" with
    | .error e => .error e
    | .ok sanitizedRepo =>
      match prNumber with
      | some n =>
        match sanitizePRNumber n with
        | .error e => .error e
        | .ok sanitizedNumber =>
          .ok ("/repos/" ++ sanitizedOwner ++ "/" ++ sanitizedRepo
            ++ "/pulls/" ++ toString sanitizedNumber)
      | none => .ok ("/repos/" ++ sanitizedOwner ++ "/" ++ sanitizedRepo ++ "/pulls")

/-- `clamp(value, min, max)` = `Math.min(Math.max(value, min), max)`. -/
def clamp (value lo hi : Int) : Int := min (max value lo) hi

/-- `PRData.user`. -/
structure PRUser where
  login : String
deriving Repr, DecidableEq

/-- `PRData`; the string-literal unions are modelled as strings. -/
structure PRData where
  number : Int
  title : String
  state : String
  draft : Bool
  html_url : String
  user : PRUser
  created_at : String
  updated_at : String
  mergeable_state : Option String
deriving Repr, DecidableEq

/-- `GitHubConfig` after defaulting.  `baseURL` and `userAgent` only feed the
URL and headers of the outgoing `fetch`, which the network environment
abstracts, so they are not carried. -/
structure GitHubConfig where
  token : String
  timeout : Int
deriving Repr, DecidableEq

/-- Classified observable outcome of one `fetch` invocation, as seen by
`attemptRequest`:
* `ok headers value`: a 2xx response whose body parses to `value`;
* `httpError ...`: a non-2xx response, already reduced to the arguments that
  reach `createErrorForStatus` (status, extracted message, status text,
  extracted documentation url) plus its rate-limit headers;
* `aborted`: the timeout fired and `fetch` rejected with an `AbortError`;
* `transportError`: `fetch` rejected with a network-level `TypeError`.
For `aborted`/`transportError` no response exists, so no headers are read. -/
inductive NetworkEvent (T : Type) where
  | ok (headers : ResponseHeaders) (value : T)
  | httpError (headers : ResponseHeaders) (status : Int)
      (message statusText : String) (documentationUrl : Option String)
  | aborted
  | transportError

/-- Entry of the observable event log of a client run. -/
inductive LogEvent where
  | wait (ms : Int)
  | netCall (callIndex : Nat) (time : Int)
deriving Repr, DecidableEq

/-- The mutable client state (`state.rateLimit`), together with the model
bookkeeping: the clock (`Date.now()`), the running count of `fetch`
invocations, and the event log. -/
structure ClientState where
  rateLimit : Option RateLimitInfo
  now : Int
  netCalls : Nat
  log : List LogEvent
deriving Repr, DecidableEq

/-- `await delay(ms)`: advances the clock and logs the wait. -/
def delayAndLog (s : ClientState) (ms : Int) : ClientState :=
  { s with now := s.now + ms, log := s.log ++ [.wait ms] }

/-- An exception escaping `attemptRequest`: either a (subclass of)
`GitHubRequestError`, or a foreign JS error rethrown as-is, recorded by its
`name` (the transport failures of the model are `TypeError`s). -/
inductive RequestFailure where
  | github (e : GitHubRequestError)
  | jsError (name : String)
deriving Repr, DecidableEq

theorem shouldRetry_lt_max {e : Option GitHubRequestError} {a : Nat}
    {rl : Option RateLimitInfo} (h : shouldRetry e a rl = true) :
    a < MAX_RETRIES := by
  by_contra hle
  simp [shouldRetry, Nat.le_of_not_lt hle] at h

/-- `attemptRequest(path, init, state, attempt)`.

The structure mirrors the source's `try`/`catch` exactly: the `fetch` outcome
is classified inside `try`; a non-2xx outcome either recurses (retry, still
inside `try`) or throws, and every `GitHubRequestError` raised inside `try` —
including one propagating out of the recursive call — reaches this frame's
`catch`, whose branches consult `shouldRetry` again with this frame's own
`attempt` counter and may recurse a second time.  Exceptions thrown from
inside the `catch` block propagate without further handling.  Termination is
exactly the source's argument: every recursive call is guarded by
`shouldRetry … attempt … = true`, which forces `attempt < MAX_RETRIES`. -/
def attemptRequest {T : Type} (env : Nat → NetworkEvent T) (cfg : GitHubConfig)
    (s : ClientState) (attempt : Nat) : Except RequestFailure T × ClientState :=
  let s0 : ClientState :=
    { s with netCalls := s.netCalls + 1, log := s.log ++ [.netCall s.netCalls s.now] }
  match env s.netCalls with
  | .ok headers value =>
      (.ok value, { s0 with rateLimit := updateRateLimitFromHeaders headers s0.rateLimit })
  | .httpError headers status message statusText documentationUrl =>
      let s1 : ClientState :=
        { s0 with rateLimit := updateRateLimitFromHeaders headers s0.rateLimit }
      let error := createErrorForStatus status message statusText documentationUrl
      -- body of the `try` block: retry in place or throw `error`
      let tryResult : Except RequestFailure T × ClientState :=
        if h : shouldRetry (some error) attempt s1.rateLimit then
          attemptRequest env cfg
            (delayAndLog s1 (nextBackoffDelay attempt s1.rateLimit s1.now)) (attempt + 1)
        else
          (.error (.github error), s1)
      -- the `catch` block, seeing any failure raised inside `try`
      match tryResult with
      | (.ok value, s2) => (.ok value, s2)
      | (.error (.github e), s2) =>
          if h : shouldRetry (some e) attempt s2.rateLimit then
            attemptRequest env cfg
              (delayAndLog s2 (nextBackoffDelay attempt s2.rateLimit s2.now)) (attempt + 1)
          else (.error (.github e), s2)
      | (.error (.jsError name), s2) =>
          if name == "TypeError" then
            if h : shouldRetry none attempt s2.rateLimit then
              attemptRequest env cfg
                (delayAndLog s2 (nextBackoffDelay attempt s2.rateLimit s2.now)) (attempt + 1)
            else (.error (.jsError name), s2)
          else (.error (.jsError name), s2)
  | .aborted =>
      -- the AbortError is converted inside `catch`; a failure of the
      -- recursive call below propagates without re-handling
      let timeoutError : GitHubRequestError :=
        ⟨.timeout, "GitHub request timed out after " ++ toString cfg.timeout ++ "ms",
          408, "Request Timeout", none⟩
      if h : shouldRetry (some timeoutError) attempt s0.rateLimit then
        attemptRequest env cfg
          (delayAndLog s0 (nextBackoffDelay attempt s0.rateLimit s0.now)) (attempt + 1)
      else (.error (.github timeoutError), s0)
  | .transportError =>
      -- `error.name === "TypeError"` branch of `catch`
      if h : shouldRetry none attempt s0.rateLimit then
        attemptRequest env cfg
          (delayAndLog s0 (nextBackoffDelay attempt s0.rateLimit s0.now)) (attempt + 1)
      else (.error (.jsError "TypeError"), s0)
termination_by MAX_RETRIES - attempt
decreasing_by
  all_goals exact Nat.sub_lt_sub_left (shouldRetry_lt_max h) (Nat.lt_succ_self attempt)

/-- The client's `request(path, init)`: `ensureToken`, then
`respectRateLimit`, then `attemptRequest` starting at attempt 1.  The `path`
is kept for fidelity; the network environment indexes outcomes by invocation
order. -/
def request {T : Type} (env : Nat → NetworkEvent T) (cfg : GitHubConfig)
    (s : ClientState) (path : String) : Except RequestFailure T × ClientState :=
  if cfg.token == "" then
    (.error (.github ⟨.unauthorized,
      "GitHub token is missing. Configure GITHUB_TOKEN before making API requests.",
      401, "Unauthorized", none⟩), s)
  else
    let w := respectRateLimit s.rateLimit s.now
    let s1 := if 0 < w then delayAndLog s w else s
    attemptRequest env cfg s1 1

theorem request_eq_of_token {T : Type} (env : Nat → NetworkEvent T)
    (cfg : GitHubConfig) (s : ClientState) (path : String)
    (htoken : (cfg.token == "") = false) :
    request env cfg s path =
      attemptRequest env cfg
        (if 0 < respectRateLimit s.rateLimit s.now
          then delayAndLog s (respectRateLimit s.rateLimit s.now) else s) 1 := by
  simp [request, htoken]

/-- The body of `fetchPR`'s `try` block: `request(buildPRPath(...))`, with a
`buildPRPath` failure surfacing as a raised exception. -/
def fetchPRTry (env : Nat → NetworkEvent PRData) (cfg : GitHubConfig)
    (s : ClientState) (owner repo : String) (prNumber : Int) :
    Except RequestFailure PRData × ClientState :=
  match buildPRPath owner repo (some prNumber) with
  | .error e => (.error (.github e), s)
  | .ok path => request env cfg s path

/-- `fetchPR(owner, repo, prNumber)`: NotFound errors are converted to a
`null` (`none`) result, every other exception is rethrown. -/
def fetchPR (env : Nat → NetworkEvent PRData) (cfg : GitHubConfig)
    (s : ClientState) (owner repo : String) (prNumber : Int) :
    Except RequestFailure (Option PRData) × ClientState :=
  match fetchPRTry env cfg s owner repo prNumber with
  | (.ok data, s1) => (.ok (some data), s1)
  | (.error (.github e), s1) =>
      if e.kind == .notFound then (.ok none, s1) else (.error (.github e), s1)
  | (.error (.jsError name), s1) => (.error (.jsError name), s1)

/-- `FetchPROptions`. -/
structure FetchPROptions where
  state : Option String
  perPage : Option Int
  page : Option Int
deriving Repr, DecidableEq

/-- `fetchPRs(owner, repo, options)`: builds the list path with its query
string (URLSearchParams serializes in insertion order) and issues the
request; it has no `catch`, so failures propagate. -/
def fetchPRs (env : Nat → NetworkEvent (List PRData)) (cfg : GitHubConfig)
    (s : ClientState) (owner repo : String) (options : FetchPROptions) :
    Except RequestFailure (List PRData) × ClientState :=
  match buildPRPath owner repo none with
  | .error e => (.error (.github e), s)
  | .ok base =>
    let stateParam := options.state.getD "open"
    let params :=
      (if stateParam == "open" then "" else "state=" ++ stateParam ++ "&")
        ++ "per_page=" ++ toString (clamp (options.perPage.getD 30) 1 100)
        ++ "&page=" ++ toString (options.page.getD 1)
    request env cfg s (base ++ "?" ++ params)

/-- `validateToken()`: `true` on success of the `/user` call, `false` when an
`GitHubUnauthorizedError` is caught, rethrow otherwise. -/
def validateToken {T : Type} (env : Nat → NetworkEvent T) (cfg : GitHubConfig)
    (s : ClientState) : Except RequestFailure Bool × ClientState :=
  match request env cfg s "/user" with
  | (.ok _, s1) => (.ok true, s1)
  | (.error (.github e), s1) =>
      if e.kind == .unauthorized then (.ok false, s1) else (.error (.github e), s1)
  | (.error (.jsError name), s1) => (.error (.jsError name), s1)

/-- `l` extends `base` by appending events at the end. -/
def extendsLog (base l : List LogEvent) : Prop := ∃ u, l = base ++ u

/-- Modelled from the spec: the Result Cache and the cache-enabled client
configuration are exercised by the repository's tests (`cacheTTL`,
`cacheEnabled` in `createGitHubClient`'s config, "cached response should avoid
duplicate fetch") but their implementation is not among the source files; the
cache is modelled from spec sections 4.3 and 4.5. -/
structure CachedGitHubConfig where
  base : GitHubConfig
  cacheEnabled : Bool
  cacheTTL : Int
deriving Repr, DecidableEq

/-- Modelled from the spec: a cached lookup result is the resource or the
not-found outcome (both cacheable). -/
inductive CachedResult where
  | found (data : PRData)
  | notFound
deriving Repr, DecidableEq

/-- Modelled from the spec: cache entry with absolute expiry. -/
structure CacheEntry where
  result : CachedResult
  expiresAt : Int
deriving Repr, DecidableEq

/-- Modelled from the spec: the client state extended with the cache table. -/
structure CachedClientState where
  base : ClientState
  cache : List (String × CacheEntry)
deriving Repr, DecidableEq

/-- Modelled from the spec: the composite cache key of (owner, repo, number). -/
def cacheKey (owner repo : String) (n : Int) : String :=
  owner ++ "/" ++ repo ++ "#" ++ toString n

/-- Modelled from the spec: `get(key)` returns the entry only before its
expiry, a miss otherwise. -/
def cacheGet (cache : List (String × CacheEntry)) (key : String) (now : Int) :
    Option CachedResult :=
  match cache.find? (fun kv => kv.1 == key) with
  | some kv => if now < kv.2.expiresAt then some kv.2.result else none
  | none => none

/-- Modelled from the spec: `put(key, value, ttl)` overwrites any existing
entry for the key. -/
def cachePut (cache : List (String × CacheEntry)) (key : String)
    (entry : CacheEntry) : List (String × CacheEntry) :=
  (key, entry) :: cache.filter (fun kv => !(kv.1 == key))

/-- Modelled from the spec: the single-resource fetch of the cache-enabled
client: cache lookup first, on a hit return it without touching the network;
on a miss run `fetchPR` and memoize both the found and the not-found outcome
with expiry `now + cacheTTL`; errors are not cached; with the cache disabled
the lookup is a passthrough. -/
def cachedFetchPR (env : Nat → NetworkEvent PRData) (cfg : CachedGitHubConfig)
    (s : CachedClientState) (owner repo : String) (n : Int) :
    Except RequestFailure (Option PRData) × CachedClientState :=
  if cfg.cacheEnabled then
    match cacheGet s.cache (cacheKey owner repo n) s.base.now with
    | some (.found d) => (.ok (some d), s)
    | some .notFound => (.ok none, s)
    | none =>
      match fetchPR env cfg.base s.base owner repo n with
      | (.ok (some d), b1) =>
          (.ok (some d), ⟨b1, cachePut s.cache (cacheKey owner repo n)
            ⟨.found d, b1.now + cfg.cacheTTL⟩⟩)
      | (.ok none, b1) =>
          (.ok none, ⟨b1, cachePut s.cache (cacheKey owner repo n)
            ⟨.notFound, b1.now + cfg.cacheTTL⟩⟩)
      | (.error f, b1) => (.error f, ⟨b1, s.cache⟩)
  else
    match fetchPR env cfg.base s.base owner repo n with
    | (r, b1) => (r, ⟨b1, s.cache⟩)

/-- Sample client configuration used by the concrete instantiations. -/
def sampleConfig : GitHubConfig := ⟨"test-token", 10000⟩

/-- A fresh client state: no snapshot yet, clock at 0, no calls, empty log. -/
def freshState : ClientState := ⟨none, 0, 0, []⟩

/-- A snapshot showing zero remaining quota with an already-passed reset. -/
def exhaustedSnapshot : RateLimitInfo := ⟨5000, 0, 0, 5000⟩

/-- A client state whose snapshot shows zero remaining quota. -/
def exhaustedState : ClientState := ⟨some exhaustedSnapshot, 0, 0, []⟩

/-- A client state whose snapshot shows zero remaining quota and a reset time
(epoch second 2, i.e. 2000 ms) in the future of its clock (0). -/
def exhaustedFutureState : ClientState := ⟨some ⟨5000, 0, 2, 5000⟩, 0, 0, []⟩

/-- A server that answers HTTP 500 to every attempt. -/
def serverErrorEnv : Nat → NetworkEvent PRData :=
  fun _ => .httpError emptyHeaders 500 "boom" "Internal Server Error" none

/-- A server that answers HTTP 404 to every attempt. -/
def notFoundEnv : Nat → NetworkEvent PRData :=
  fun _ => .httpError emptyHeaders 404 "Not Found" "Not Found" none

/-- A server that answers HTTP 401 to every attempt. -/
def unauthorizedEnv : Nat → NetworkEvent PRData :=
  fun _ => .httpError emptyHeaders 401 "Bad credentials" "Unauthorized" none

/-- A sample pull-request payload. -/
def samplePR : PRData :=
  ⟨1, "Add retry logic", "open", false,
    "https://github.com/cheefbird/patty-pr-minder/pull/1", ⟨"cheefbird"⟩,
    "2025-01-01T00:00:00Z", "2025-01-02T00:00:00Z", some "unknown"⟩

/-- A server that answers 200 with `samplePR` to every attempt. -/
def okEnv : Nat → NetworkEvent PRData := fun _ => .ok emptyHeaders samplePR

/-- A server that answers 200 with an empty list to every attempt. -/
def okListEnv : Nat → NetworkEvent (List PRData) := fun _ => .ok emptyHeaders []

/-- Cache-enabled configuration matching the repository's test fixture. -/
def cachedSampleConfig : CachedGitHubConfig := ⟨sampleConfig, true, 120000⟩

/-- A fresh cached-client state. -/
def freshCachedState : CachedClientState := ⟨freshState, []⟩

end GithubClient

namespace PRUtils

/-- `PRUrlInfo`.  The JS `number` field is a double produced by `parseInt` on
a digit run: `some w` is its (nonnegative, integral) exact value, `none` is
`+Infinity`. -/
structure PRUrlInfo where
  owner : String
  repo : String
  number : Option Nat
deriving Repr, DecidableEq

/-- The JS `String.prototype.trim`: strip whitespace from both ends. -/
def trimChars (cs : List Char) : List Char :=
  ((cs.dropWhile Char.isWhitespace).reverse.dropWhile Char.isWhitespace).reverse

/-- The character class `[a-zA-Z0-9\-_.]` of the owner/repo segment patterns. -/
def isSegmentChar (c : Char) : Bool :=
  c.isAlphanum || c == '-' || c == '_' || c == '.'

/-- The anchored segment pattern `[a-zA-Z0-9](?:[a-zA-Z0-9\-_.]{0,maxMid}[a-zA-Z0-9])?`
applied to a whole character run: a single alphanumeric character, or an
alphanumeric first and last with at most `maxMid` segment characters between. -/
def segmentShape (maxMid : Nat) : List Char → Bool
  | [] => false
  | [c] => c.isAlphanum
  | c :: rest =>
      c.isAlphanum && decide (rest.length ≤ maxMid + 1)
        && rest.dropLast.all isSegmentChar
        && (match rest.getLast? with
            | some d => d.isAlphanum
            | none => false)

/-- `OWNER_SEGMENT` (`maxMid` 38) as a predicate on strings. -/
def isOwnerSegment (s : String) : Bool := segmentShape 38 s.toList

/-- `REPO_SEGMENT` (`maxMid` 99) as a predicate on strings. -/
def isRepoSegment (s : String) : Bool := segmentShape 99 s.toList

/-- Strip a literal (case-sensitively); `none` when the input does not start
with it. -/
def dropLit : List Char → List Char → Option (List Char)
  | [], cs => some cs
  | _ :: _, [] => none
  | l :: ls, c :: cs => if c == l then dropLit ls cs else none

/-- Strip a (lowercase) literal case-insensitively. -/
def dropLitCI : List Char → List Char → Option (List Char)
  | [], cs => some cs
  | _ :: _, [] => none
  | l :: ls, c :: cs => if c.toLower == l then dropLitCI ls cs else none

/-- `https?:\/\/`, case-sensitively (the URL pattern carries no `i` flag). -/
def dropScheme (cs : List Char) : Option (List Char) :=
  match dropLit "http".toList cs with
  | none => none
  | some cs1 =>
    let cs2 := match cs1 with
      | 's' :: rest => rest
      | _ => cs1
    dropLit "://".toList cs2

/-- `(?:www\.)?github\.com\/` with the regex backtracking over the optional
`www.` made explicit. -/
def dropHost (cs : List Char) : Option (List Char) :=
  match dropLit "www.".toList cs with
  | some cs1 =>
    match dropLit "github.com/".toList cs1 with
    | some cs2 => some cs2
    | none => dropLit "github.com/".toList cs
  | none => dropLit "github.com/".toList cs

/-- The trailing `(?:[\/?#][^\s]*)?$` after the digits: either the end of the
string, or a `/`, `?` or `#` followed only by non-whitespace up to the end. -/
def trailingPartOk (cs : List Char) : Bool :=
  match cs with
  | [] => true
  | c :: rest =>
      (c == '/' || c == '?' || c == '#') && rest.all (fun d => !d.isWhitespace)

/-- `GITHUB_PR_URL_PATTERN.exec` as a deterministic parser returning the three
capture groups (owner run, repo run, digit run).  Determinism: the segment
classes exclude `/`, so each segment is exactly the maximal run up to the next
`/`, and `\d+` is the maximal digit run. -/
def execPRUrlPattern (cs : List Char) : Option (List Char × List Char × List Char) :=
  match dropScheme cs with
  | none => none
  | some cs1 =>
    match dropHost cs1 with
    | none => none
    | some cs2 =>
      let ownerSplit := cs2.span (fun c => c != '/')
      if segmentShape 38 ownerSplit.1 then
        match ownerSplit.2 with
        | '/' :: cs3 =>
          let repoSplit := cs3.span (fun c => c != '/')
          if segmentShape 99 repoSplit.1 then
            match dropLit "/pull/".toList repoSplit.2 with
            | some cs4 =>
              let digitSplit := cs4.span Char.isDigit
              if digitSplit.1.isEmpty then none
              else if trailingPartOk digitSplit.2 then
                some (ownerSplit.1, repoSplit.1, digitSplit.1)
              else none
            | none => none
          else none
        | _ => none
      else none

/-- The exact integer value of a run of decimal digits: the mathematical
value `parseInt(numberStr, 10)` starts from before rounding it to a double. -/
def digitsToNat (ds : List Char) : Nat :=
  ds.foldl (fun acc c => acc * 10 + (c.toNat - '0'.toNat)) 0

/-- Bit length (`Nat.log2 n + 1` for positive `n`), with structural fuel so
that concrete values reduce in the kernel; the fuel covers every value below
`2 ^ 7000`, far beyond what a digit run inside a URL bounded by the
2000-character guard can represent. -/
def bitLenAux : Nat → Nat → Nat
  | 0, _ => 0
  | fuel + 1, n => if n = 0 then 0 else bitLenAux fuel (n / 2) + 1

def bitLen (n : Nat) : Nat := bitLenAux 7000 n

/-- `parseInt` lands on an IEEE-754 binary64: the exact value below `2 ^ 53`,
the nearest double above it (round to nearest, ties to the even significand),
and `+Infinity` — modelled as `none` — once the rounded value reaches
`2 ^ 1024`.  The `some` payload is the double's exact integer value. -/
def roundToDouble (v : Nat) : Option Nat :=
  if v < 2 ^ 53 then some v
  else
    let e := bitLen v - 53
    let q := v / 2 ^ e
    let r := v % 2 ^ e
    let q' := if 2 ^ e < 2 * r ∨ (2 * r = 2 ^ e ∧ q % 2 = 1) then q + 1 else q
    if q' * 2 ^ e < 2 ^ 1024 then some (q' * 2 ^ e) else none

/-- Decimal digit count, with structural fuel (every finite double is below
`10 ^ 309`, so fuel 400 is never exhausted where `digitCount` is used). -/
def digitCountAux : Nat → Nat → Nat
  | 0, _ => 1
  | fuel + 1, n => if n < 10 then 1 else digitCountAux fuel (n / 10) + 1

def digitCount (n : Nat) : Nat := digitCountAux 400 n

/-- The scale factor `2 ^ 64` that keeps the decimal rounding interval of a
double in integer arithmetic: half an ulp of an integral double `w` is
`2 ^ (⌊log₂ w⌋ - 53)`, an integer multiple of `2 ^ (-53)`, so scaling by
`2 ^ 64` makes every bound a positive integer. -/
def SC : Nat := 2 ^ 64

/-- The interval of real numbers that round to the integral double `w`
(round to nearest, ties to even), scaled by `SC`: `(lo, hi, closed)` stands
for `lo ≤ x * SC ≤ hi`, with strict inequalities when `closed` is `false`,
i.e. when the significand is odd and the two midpoints round away from `w`.
Directly below a power of two the gap to the previous double is half an ulp,
hence the smaller `loGap` there. -/
def roundingInterval (w : Nat) : Nat × Nat × Bool :=
  let m := bitLen w - 1
  let hiGap := 2 ^ (m + 11)
  let loGap := if w = 2 ^ m then 2 ^ (m + 10) else 2 ^ (m + 11)
  let sig := if m ≤ 52 then w * 2 ^ (52 - m) else w / 2 ^ (m - 52)
  (w * SC - loGap, w * SC + hiGap, sig % 2 == 0)

/-- The integers `s` whose decimal value `s * 10 ^ j` lies in the scaled
rounding interval `[lo, hi]`: `some (sMin, sMax)` when that range is
nonempty. -/
def sRange (lo hi : Nat) (closed : Bool) (j : Nat) : Option (Nat × Nat) :=
  let step := SC * 10 ^ j
  let sMin := if closed then (lo + step - 1) / step else lo / step + 1
  let sMax := if closed then hi / step else (hi - 1) / step
  if 1 ≤ sMin ∧ sMin ≤ sMax then some (sMin, sMax) else none

/-- Among `s ∈ [a, b]`, the one whose scaled decimal `s * step` is closest to
the scaled double `wS`; with two equally close, the even one — ECMAScript
6.1.6.1.20's tie rule for the chosen digit string `s`. -/
def pickS (a b wS step : Nat) : Nat :=
  let c1 := max (min (wS / step) b) a
  let c2 := max (min (wS / step + 1) b) a
  if Nat.dist (c2 * step) wS < Nat.dist (c1 * step) wS then c2
  else if Nat.dist (c1 * step) wS < Nat.dist (c2 * step) wS then c1
  else if c1 % 2 == 0 then c1 else c2

/-- Search downward for the largest `j` such that some decimal `s * 10 ^ j`
rounds to the double — equivalently 6.1.6.1.20's "`k` is as small as
possible", since trailing zeros of the decimal are not significant digits.
`j = 0` always succeeds because the double's own value lies in its interval,
so the fallback arm of the `0` case is never reached. -/
def shortestFrom (lo hi wS : Nat) (closed : Bool) : Nat → Nat × Nat
  | 0 =>
    match sRange lo hi closed 0 with
    | some (a, b) => (pickS a b wS (SC * 10 ^ 0), 0)
    | none => (wS / SC, 0)
  | j + 1 =>
    match sRange lo hi closed (j + 1) with
    | some (a, b) => (pickS a b wS (SC * 10 ^ (j + 1)), j + 1)
    | none => shortestFrom lo hi wS closed j

/-- ECMAScript `Number::toString(10)` (6.1.6.1.20) on the values `parseInt`
of a digit run can yield: a nonnegative integral double, or `+Infinity`.  The
standard renders the shortest decimal `s * 10 ^ (n - k)` (`k` the digit count
of `s`, `j = n - k` its trailing zeros) whose value rounds to the double: in
plain decimal notation when `n ≤ 21` — the digits of `s` followed by `n - k`
zeros, i.e. the numeral of `s * 10 ^ j` — and in exponential notation
`d.ddd…e+x` with `x = n - 1` otherwise. -/
def jsNumberToString (num : Option Nat) : String :=
  match num with
  | none => "Infinity"
  | some w =>
    if w = 0 then "0"
    else
      let ri := roundingInterval w
      let sj := shortestFrom ri.1 ri.2.1 (w * SC) ri.2.2 (digitCount w + 1)
      let k := digitCount sj.1
      if k + sj.2 ≤ 21 then Nat.repr (sj.1 * 10 ^ sj.2)
      else
        let ds := (Nat.repr sj.1).toList
        String.mk (ds.take 1)
          ++ (if ds.length ≤ 1 then "" else "." ++ String.mk (ds.drop 1))
          ++ "e+" ++ Nat.repr (k + sj.2 - 1)

/-- The guard `number > 0` on the parsed double: `Infinity > 0` holds, and a
digit run never parses to NaN. -/
def jsNumPos : Option Nat → Bool
  | none => true
  | some w => decide (0 < w)

/-- `matchPRComponents(url)`: run the anchored pattern, round the captured
digit run through `parseInt`'s double, then the `number > 0` guard. -/
def matchPRComponents (url : String) : Option PRUrlInfo :=
  match execPRUrlPattern url.toList with
  | none => none
  | some (ownerCs, repoCs, digitCs) =>
    let number := roundToDouble (digitsToNat digitCs)
    if jsNumPos number then
      some ⟨String.mk (trimChars ownerCs), String.mk (trimChars repoCs), number⟩
    else none

/-- Whether `hay` starts with `needle`. -/
def startsWithChars : List Char → List Char → Bool
  | [], _ => true
  | _ :: _, [] => false
  | n :: ns, h :: hs => n == h && startsWithChars ns hs

/-- Whether `needle` occurs as a contiguous substring (`String.includes`). -/
def hasSubstrChars (needle : List Char) : List Char → Bool
  | [] => startsWithChars needle []
  | h :: hs => startsWithChars needle (h :: hs) || hasSubstrChars needle hs

/-- The Slack unwrapping pattern `^<([^|>]+)(?:\|[^>]+)?>$`: returns the first
capture group on a match. -/
def slackUnwrap (cs : List Char) : Option (List Char) :=
  match cs with
  | '<' :: rest =>
    let g1Split := rest.span (fun c => c != '|' && c != '>')
    if g1Split.1.isEmpty then none
    else
      match g1Split.2 with
      | ['>'] => some g1Split.1
      | '|' :: rest2 =>
        let g2Split := rest2.span (fun c => c != '>')
        if g2Split.1.isEmpty then none
        else
          match g2Split.2 with
          | ['>'] => some g1Split.1
          | _ => none
      | _ => none
  | _ => none

/-- Model of the host runtime's WHATWG `URL` object, reduced to the parts
`sanitizeUrl` reads and writes.  `protocol` carries its trailing `:`;
`search` and `fragment` are stored without their `?`/`#` markers. -/
structure JsURL where
  protocol : String
  hostname : String
  port : String
  pathname : String
  search : String
  fragment : String
deriving Repr, DecidableEq

/-- Model of the `new URL(...)` constructor, simplified: accepts
`scheme://host[:port][/path][?query][#fragment]` with an alphabetic scheme and
a nonempty host; scheme and hostname are lowercased; an empty path serializes
as `/`; percent-encoding and the finer WHATWG rules are not modelled.  `none`
models the constructor throwing. -/
def jsURLParse (s : String) : Option JsURL :=
  let cs := s.toList
  let schemeSplit := cs.span (fun c => c != ':')
  if schemeSplit.1.isEmpty || !(schemeSplit.1.all Char.isAlpha) then none
  else
    match schemeSplit.2 with
    | ':' :: '/' :: '/' :: rest =>
      let hostSplit := rest.span (fun c => c != '/' && c != '?' && c != '#')
      if hostSplit.1.isEmpty then none
      else
        let hostPort := hostSplit.1.span (fun c => c != ':')
        let port := match hostPort.2 with
          | ':' :: p => p
          | _ => ([] : List Char)
        let pathSplit := hostSplit.2.span (fun c => c != '?' && c != '#')
        let afterPath := pathSplit.2
        let search := match afterPath with
          | '?' :: q => (q.span (fun c => c != '#')).1
          | _ => ([] : List Char)
        let fragment := match afterPath with
          | '?' :: q =>
            (match (q.span (fun c => c != '#')).2 with
              | '#' :: f => f
              | _ => ([] : List Char))
          | '#' :: f => f
          | _ => ([] : List Char)
        some ⟨String.mk (schemeSplit.1.map Char.toLower) ++ ":",
              String.mk (hostPort.1.map Char.toLower),
              String.mk port,
              if pathSplit.1.isEmpty then "/" else String.mk pathSplit.1,
              String.mk search, String.mk fragment⟩
    | _ => none

/-- Model of `URL.prototype.toString` for the simplified `JsURL`. -/
def jsURLToString (u : JsURL) : String :=
  u.protocol ++ "//" ++ u.hostname
    ++ (if u.port == "" then "" else ":" ++ u.port)
    ++ u.pathname
    ++ (if u.search == "" then "" else "?" ++ u.search)
    ++ (if u.fragment == "" then "" else "#" ++ u.fragment)

/-- The tracking parameters removed by `sanitizeUrl`. -/
def trackingParams : List String := ["utm_source", "utm_medium", "utm_campaign", "ref"]

/-- Model of the `searchParams.delete` loop: drop every `k=v` (or bare `k`)
pair whose key is a tracking parameter. -/
def deleteTrackingParams (search : String) : String :=
  if search == "" then ""
  else
    String.intercalate "&"
      ((search.splitOn "&").filter
        (fun p => !(trackingParams.contains (p.takeWhile (fun c => c != '=')))))

/-- `sanitizeUrl(url)`. -/
def sanitizeUrl (url : String) : String :=
  if url == "" then ""
  else
    let cleaned := String.mk (trimChars url.toList)
    let cleaned :=
      if startsWithChars "<".toList cleaned.toList
          && hasSubstrChars ">".toList cleaned.toList then
        match slackUnwrap cleaned.toList with
        | some inner => String.mk inner
        | none => cleaned
      else cleaned
    match jsURLParse cleaned with
    | some u =>
      let u := if u.protocol == "http:" then { u with protocol := "https:" } else u
      let u := if u.hostname == "www.github.com" then { u with hostname := "github.com" } else u
      let u := { u with search := deleteTrackingParams u.search }
      jsURLToString u
    | none => String.mk (trimChars cleaned.toList)

/-- One starting position of `GITHUB_URL_QUICK_CHECK`
(`github\.com\/[^/]+\/[^/]+\/pull\/\d+`). -/
def quickCheckAt (cs : List Char) : Bool :=
  match dropLit "github.com/".toList cs with
  | none => false
  | some cs1 =>
    let seg1 := cs1.span (fun c => c != '/')
    if seg1.1.isEmpty then false
    else
      match seg1.2 with
      | '/' :: cs2 =>
        let seg2 := cs2.span (fun c => c != '/')
        if seg2.1.isEmpty then false
        else
          match dropLit "/pull/".toList seg2.2 with
          | some cs3 =>
            (match cs3 with
              | c :: _ => c.isDigit
              | [] => false)
          | none => false
      | _ => false

/-- The unanchored `GITHUB_URL_QUICK_CHECK.test`: search at every position. -/
def quickCheckFrom : List Char → Bool
  | [] => false
  | c :: rest => quickCheckAt (c :: rest) || quickCheckFrom rest

/-- `isValidGitHubPRUrl(url)`. -/
def isValidGitHubPRUrl (url : String) : Bool :=
  if url == "" then false
  else if decide (2000 < url.length) then false
  else
    let sanitized := sanitizeUrl url
    if !(quickCheckFrom sanitized.toList) then false
    else (matchPRComponents sanitized).isSome

/-- `parseGitHubPRUrl(url)`. -/
def parseGitHubPRUrl (url : String) : Option PRUrlInfo :=
  if url == "" then none
  else if !(isValidGitHubPRUrl url) then none
  else matchPRComponents (sanitizeUrl url)

/-- `normalizeCandidateUrl(rawCandidate)`. -/
def normalizeCandidateUrl (rawCandidate : String) : Option String :=
  let sanitized := sanitizeUrl rawCandidate
  match parseGitHubPRUrl sanitized with
  | some prInfo =>
      some ("https://github.com/" ++ prInfo.owner ++ "/" ++ prInfo.repo
        ++ "/pull/" ++ jsNumberToString prInfo.number)
  | none => none

/-- `https?:\/\/(?:www\.)?github\.com\/` of the message-scanning pattern,
case-insensitively (it carries the `i` flag). -/
def dropSchemeHostCI (cs : List Char) : Option (List Char) :=
  match dropLitCI "http".toList cs with
  | none => none
  | some cs1 =>
    let cs2 := match cs1 with
      | c :: rest => if c.toLower == 's' then rest else cs1
      | [] => cs1
    match dropLitCI "://".toList cs2 with
    | none => none
    | some cs3 =>
      match dropLitCI "www.".toList cs3 with
      | some cs4 =>
        match dropLitCI "github.com/".toList cs4 with
        | some cs5 => some cs5
        | none => dropLitCI "github.com/".toList cs3
      | none => dropLitCI "github.com/".toList cs3

/-- First alternative of `GITHUB_PR_MESSAGE_PATTERN`:
`<https?:\/\/(?:www\.)?github\.com\/[^>]+(?:\|[^>]+)?>`; returns the whole
match and the rest of the input. -/
def tryMatchSlackWrapped (cs : List Char) : Option (List Char × List Char) :=
  match cs with
  | '<' :: cs1 =>
    match dropSchemeHostCI cs1 with
    | none => none
    | some cs2 =>
      let bodySplit := cs2.span (fun c => c != '>')
      if bodySplit.1.isEmpty then none
      else
        match bodySplit.2 with
        | '>' :: rest => some (cs.take (cs.length - rest.length), rest)
        | _ => none
  | _ => none

/-- Second alternative of `GITHUB_PR_MESSAGE_PATTERN`:
`https?:\/\/(?:www\.)?github\.com\/[^\s<>]+`. -/
def tryMatchPlain (cs : List Char) : Option (List Char × List Char) :=
  match dropSchemeHostCI cs with
  | none => none
  | some cs2 =>
    let bodySplit := cs2.span (fun c => !c.isWhitespace && c != '<' && c != '>')
    if bodySplit.1.isEmpty then none
    else some (cs.take (cs.length - bodySplit.2.length), bodySplit.2)

/-- `matchAll` with `GITHUB_PR_MESSAGE_PATTERN`: leftmost matches, first
alternative preferred, scanning resumes after each match; the fuel (the input
length bounds the number of steps) keeps the recursion structural. -/
def scanAux : Nat → List Char → List (List Char)
  | 0, _ => []
  | _, [] => []
  | fuel + 1, cs =>
    match tryMatchSlackWrapped cs with
    | some m2 => m2.1 :: scanAux fuel m2.2
    | none =>
      match tryMatchPlain cs with
      | some m2 => m2.1 :: scanAux fuel m2.2
      | none => scanAux fuel cs.tail

/-- The extraction loop of `extractPRUrlsFromMessage`.  The `deduped` Set and
the `results` array always hold the same elements, so the Set is modelled by
membership in `results`. -/
def extractLoop (ms : List (List Char)) (results : List String) : List String :=
  match ms with
  | [] => results
  | m :: rest =>
    match normalizeCandidateUrl (String.mk m) with
    | none => extractLoop rest results
    | some normalized =>
      if normalized ∈ results then extractLoop rest results
      else extractLoop rest (results ++ [normalized])

/-- `extractPRUrlsFromMessage(text)`. -/
def extractPRUrlsFromMessage (text : String) : List String :=
  let trimmed := trimChars text.toList
  if trimmed.isEmpty || !(hasSubstrChars "github.com".toList trimmed) then []
  else extractLoop (scanAux trimmed.length trimmed) []

/-- The canonical-output property of a normalized candidate. -/
def canonicalPRUrl (u : String) : Prop :=
  ∃ owner repo : String, ∃ n : Nat,
    0 < n ∧ isOwnerSegment owner = true ∧ isRepoSegment repo = true ∧
    u = "https://github.com/" ++ owner ++ "/" ++ repo ++ "/pull/" ++ toString n

/-- The shape of every emitted element: the canonical prefix and segments,
with the number part rendered by `jsNumberToString` from the double that
`parseInt` produced out of some digit run and that passed the positivity
guard. -/
def emittedPRUrl (u : String) : Prop :=
  ∃ owner repo : String, ∃ ds : List Char,
    isOwnerSegment owner = true ∧ isRepoSegment repo = true ∧
    jsNumPos (roundToDouble (digitsToNat ds)) = true ∧
    u = "https://github.com/" ++ owner ++ "/" ++ repo ++ "/pull/"
          ++ jsNumberToString (roundToDouble (digitsToNat ds))

end PRUtils

namespace GithubClient

theorem shouldRetry_false_of_max {e : Option GitHubRequestError} {a : Nat}
    {rl : Option RateLimitInfo} (h : MAX_RETRIES ≤ a) : shouldRetry e a rl = false := by
  simp [shouldRetry, h]


theorem extendsLog_push {base l : List LogEvent} (e : LogEvent)
    (h : extendsLog base l) : extendsLog base (l ++ [e]) := by
  obtain ⟨u, hu⟩ := h
  exact ⟨u ++ [e], by rw [hu, List.append_assoc]⟩

theorem extendsLog_trans {base l l2 : List LogEvent}
    (h1 : extendsLog base l) (h2 : extendsLog l l2) : extendsLog base l2 := by
  obtain ⟨u, hu⟩ := h1
  obtain ⟨v, hv⟩ := h2
  exact ⟨u ++ v, by rw [hv, hu, List.append_assoc]⟩

theorem delayAndLog_log (s : ClientState) (ms : Int) :
    (delayAndLog s ms).log = s.log ++ [.wait ms] := rfl

theorem extendsLog_delayAndLog {base : List LogEvent} (s : ClientState) (ms : Int)
    (h : extendsLog base s.log) : extendsLog base (delayAndLog s ms).log := by
  rw [delayAndLog_log]
  exact extendsLog_push _ h

theorem head_chain {base : List LogEvent} {x : LogEvent} {l l2 : List LogEvent}
    (h1 : ∃ u, l = base ++ x :: u) (h2 : extendsLog l l2) :
    ∃ u, l2 = base ++ x :: u := by
  obtain ⟨u, hu⟩ := h1
  obtain ⟨v, hv⟩ := h2
  exact ⟨u ++ v, by rw [hv, hu]; simp⟩

/-- Every run of `attemptRequest` only appends to the event log. -/
theorem attemptRequest_log_mono {T : Type} (env : Nat → NetworkEvent T)
    (cfg : GitHubConfig) :
    ∀ (fuel : Nat) (s : ClientState) (attempt : Nat), MAX_RETRIES ≤ attempt + fuel →
      extendsLog s.log (attemptRequest env cfg s attempt).2.log := by
  intro fuel
  induction fuel with
  | zero =>
    intro s attempt hf
    rw [attemptRequest]
    dsimp only
    split
    · exact ⟨_, rfl⟩
    · split
      · rename_i value s2 heq
        split at heq
        · rename_i hcond
          exact absurd hf (by have := shouldRetry_lt_max hcond; omega)
        · exact absurd heq (by simp)
      · rename_i e s2 heq
        have hs2 : extendsLog s.log s2.log := by
          split at heq
          · rename_i hcond
            exact absurd hf (by have := shouldRetry_lt_max hcond; omega)
          · rw [Prod.mk.injEq] at heq
            rw [← heq.2]
            exact ⟨_, rfl⟩
        split
        · rename_i hcond
          exact absurd hf (by have := shouldRetry_lt_max hcond; omega)
        · exact hs2
      · rename_i name s2 heq
        have hs2 : extendsLog s.log s2.log := by
          split at heq
          · rename_i hcond
            exact absurd hf (by have := shouldRetry_lt_max hcond; omega)
          · exact absurd heq (by simp)
        split
        · split
          · rename_i hcond
            exact absurd hf (by have := shouldRetry_lt_max hcond; omega)
          · exact hs2
        · exact hs2
    · split
      · rename_i hcond
        exact absurd hf (by have := shouldRetry_lt_max hcond; omega)
      · exact ⟨_, rfl⟩
    · split
      · rename_i hcond
        exact absurd hf (by have := shouldRetry_lt_max hcond; omega)
      · exact ⟨_, rfl⟩
  | succ n ih =>
    intro s attempt hf
    rw [attemptRequest]
    dsimp only
    split
    · exact ⟨_, rfl⟩
    · split
      · rename_i value s2 heq
        -- try branch succeeded; its state s2 came from the recursion
        split at heq
        · rename_i hcond
          have h2 : _ = s2 := congrArg Prod.snd heq
          rw [← h2]
          exact extendsLog_trans (extendsLog_delayAndLog _ _ ⟨_, rfl⟩)
            (ih _ _ (by omega))
        · exact absurd heq (by simp)
      · rename_i e s2 heq
        have hs2 : extendsLog s.log s2.log := by
          split at heq
          · rename_i hcond
            have h2 : _ = s2 := congrArg Prod.snd heq
            rw [← h2]
            exact extendsLog_trans (extendsLog_delayAndLog _ _ ⟨_, rfl⟩)
              (ih _ _ (by omega))
          · rw [Prod.mk.injEq] at heq
            rw [← heq.2]
            exact ⟨_, rfl⟩
        split
        · exact extendsLog_trans (extendsLog_delayAndLog _ _ hs2) (ih _ _ (by omega))
        · exact hs2
      · rename_i name s2 heq
        have hs2 : extendsLog s.log s2.log := by
          split at heq
          · rename_i hcond
            have h2 : _ = s2 := congrArg Prod.snd heq
            rw [← h2]
            exact extendsLog_trans (extendsLog_delayAndLog _ _ ⟨_, rfl⟩)
              (ih _ _ (by omega))
          · exact absurd heq (by simp)
        split
        · split
          · exact extendsLog_trans (extendsLog_delayAndLog _ _ hs2) (ih _ _ (by omega))
          · exact hs2
        · exact hs2
    · split
      · exact extendsLog_trans (extendsLog_delayAndLog _ _ ⟨_, rfl⟩) (ih _ _ (by omega))
      · exact ⟨_, rfl⟩
    · split
      · exact extendsLog_trans (extendsLog_delayAndLog _ _ ⟨_, rfl⟩) (ih _ _ (by omega))
      · exact ⟨_, rfl⟩

theorem attemptRequest_log_mono2 {T : Type} (env : Nat → NetworkEvent T)
    (cfg : GitHubConfig) (s : ClientState) (attempt : Nat) :
    extendsLog s.log (attemptRequest env cfg s attempt).2.log :=
  attemptRequest_log_mono env cfg MAX_RETRIES s attempt (by omega)

/-- The first event a run of `attemptRequest` appends to the log is the network
call it performs immediately, at the current clock. -/
theorem attemptRequest_log_head {T : Type} (env : Nat → NetworkEvent T)
    (cfg : GitHubConfig) (s : ClientState) (attempt : Nat) :
    ∃ tail, (attemptRequest env cfg s attempt).2.log
      = s.log ++ .netCall s.netCalls s.now :: tail := by
  rw [attemptRequest]
  dsimp only
  split
  · exact ⟨[], rfl⟩
  · split
    · rename_i value s2 heq
      split at heq
      · rename_i hcond
        have h2 : _ = s2 := congrArg Prod.snd heq
        rw [← h2]
        exact head_chain (head_chain ⟨[], rfl⟩ ⟨_, delayAndLog_log _ _⟩)
          (attemptRequest_log_mono2 env cfg _ _)
      · exact absurd heq (by simp)
    · rename_i e s2 heq
      have hs2 : ∃ u, s2.log = s.log ++ LogEvent.netCall s.netCalls s.now :: u := by
        split at heq
        · rename_i hcond
          have h2 : _ = s2 := congrArg Prod.snd heq
          rw [← h2]
          exact head_chain (head_chain ⟨[], rfl⟩ ⟨_, delayAndLog_log _ _⟩)
            (attemptRequest_log_mono2 env cfg _ _)
        · rw [Prod.mk.injEq] at heq
          rw [← heq.2]
          exact ⟨[], rfl⟩
      split
      · exact head_chain (head_chain hs2 ⟨_, delayAndLog_log _ _⟩)
          (attemptRequest_log_mono2 env cfg _ _)
      · exact hs2
    · rename_i name s2 heq
      have hs2 : ∃ u, s2.log = s.log ++ LogEvent.netCall s.netCalls s.now :: u := by
        split at heq
        · rename_i hcond
          have h2 : _ = s2 := congrArg Prod.snd heq
          rw [← h2]
          exact head_chain (head_chain ⟨[], rfl⟩ ⟨_, delayAndLog_log _ _⟩)
            (attemptRequest_log_mono2 env cfg _ _)
        · exact absurd heq (by simp)
      split
      · split
        · exact head_chain (head_chain hs2 ⟨_, delayAndLog_log _ _⟩)
            (attemptRequest_log_mono2 env cfg _ _)
        · exact hs2
      · exact hs2
  · split
    · exact head_chain (head_chain ⟨[], rfl⟩
        ⟨_, delayAndLog_log _ _⟩) (attemptRequest_log_mono2 env cfg _ _)
    · exact ⟨[], rfl⟩
  · split
    · exact head_chain (head_chain ⟨[], rfl⟩
        ⟨_, delayAndLog_log _ _⟩) (attemptRequest_log_mono2 env cfg _ _)
    · exact ⟨[], rfl⟩

/-- Shape of the log of a `request` run: with no pre-emptive wait required the
first appended event is the network call at the current clock; with an
exhausted snapshot and a future reset the first appended events are a positive
wait that reaches the reset time, then the network call. -/
theorem request_log_cases {T : Type} (env : Nat → NetworkEvent T) (cfg : GitHubConfig)
    (s : ClientState) (path : String) (htoken : (cfg.token == "") = false) :
    ((s.rateLimit = none ∨ ∃ rl, s.rateLimit = some rl ∧ 0 < rl.remaining) →
      ∃ tail, (request env cfg s path).2.log
        = s.log ++ .netCall s.netCalls s.now :: tail) ∧
    (∀ rl, s.rateLimit = some rl → rl.remaining = 0 → s.now < rl.reset * 1000 →
      ∃ w tail, 0 < w ∧ rl.reset * 1000 ≤ s.now + w ∧
        (request env cfg s path).2.log
          = s.log ++ .wait w :: .netCall s.netCalls (s.now + w) :: tail) := by
  constructor
  · intro h
    have hw : respectRateLimit s.rateLimit s.now = 0 := by
      rcases h with h | ⟨rl, hrl, hpos⟩
      · simp [respectRateLimit, h]
      · simp [respectRateLimit, hrl, hpos]
    rw [request_eq_of_token env cfg s path htoken, hw]
    simp only [lt_self_iff_false, if_false]
    exact attemptRequest_log_head env cfg s 1
  · intro rl hrl hrem hreset
    have hmaxpos : (0 : Int) < max (rl.reset * 1000 - s.now) BASE_BACKOFF_MS :=
      lt_of_lt_of_le (by norm_num [BASE_BACKOFF_MS]) (le_max_right _ _)
    have hw : respectRateLimit s.rateLimit s.now
        = max (rl.reset * 1000 - s.now) BASE_BACKOFF_MS := by
      simp [respectRateLimit, hrl, hrem, hmaxpos]
    rw [request_eq_of_token env cfg s path htoken, hw, if_pos hmaxpos]
    obtain ⟨tail, htail⟩ :=
      attemptRequest_log_head env cfg
        (delayAndLog s (max (rl.reset * 1000 - s.now) BASE_BACKOFF_MS)) 1
    refine ⟨max (rl.reset * 1000 - s.now) BASE_BACKOFF_MS, tail, hmaxpos, ?_, ?_⟩
    · have := le_max_left (rl.reset * 1000 - s.now) BASE_BACKOFF_MS
      linarith
    · rw [htail]
      simp [delayAndLog]

theorem fetchPR_state_eq (env : Nat → NetworkEvent PRData) (cfg : GitHubConfig)
    (s : ClientState) (owner repo : String) (n : Int) {p : String}
    (hpath : buildPRPath owner repo (some n) = .ok p) :
    (fetchPR env cfg s owner repo n).2 = (request env cfg s p).2 := by
  unfold fetchPR fetchPRTry
  rw [hpath]
  dsimp only
  rcases request env cfg s p with ⟨r, s1⟩
  rcases r with f | v
  · rcases f with e | nm
    · dsimp only
      split <;> rfl
    · rfl
  · rfl

theorem fetchPRs_state_eq (env : Nat → NetworkEvent (List PRData)) (cfg : GitHubConfig)
    (s : ClientState) (owner repo : String) (options : FetchPROptions) {p : String}
    (hpath : buildPRPath owner repo none = .ok p) :
    ∃ q, (fetchPRs env cfg s owner repo options).2 = (request env cfg s q).2 := by
  unfold fetchPRs
  rw [hpath]
  exact ⟨_, rfl⟩

theorem validateToken_state_eq {T : Type} (env : Nat → NetworkEvent T)
    (cfg : GitHubConfig) (s : ClientState) :
    (validateToken env cfg s).2 = (request env cfg s "/user").2 := by
  unfold validateToken
  rcases request env cfg s "/user" with ⟨r, s1⟩
  rcases r with f | v
  · rcases f with e | nm
    · dsimp only
      split <;> rfl
    · rfl
  · rfl

/-- Claim C5: pre-emptive rate-limit wait before the first attempt of each
client operation. -/
theorem clientOps_respectRateLimit {T : Type} (env : Nat → NetworkEvent PRData)
    (env2 : Nat → NetworkEvent (List PRData)) (env3 : Nat → NetworkEvent T)
    (cfg : GitHubConfig) (s : ClientState) (owner repo : String) (n : Int)
    (options : FetchPROptions)
    (htoken : (cfg.token == "") = false)
    (howner : ∃ v, sanitizeIdentifier owner "owner" = .ok v)
    (hrepo : ∃ v, sanitizeIdentifier repo "repo" = .ok v)
    (hn : 0 < n) :
    (((s.rateLimit = none ∨ ∃ rl, s.rateLimit = some rl ∧ 0 < rl.remaining) →
      ∃ tail, (fetchPR env cfg s owner repo n).2.log
        = s.log ++ .netCall s.netCalls s.now :: tail) ∧
     (∀ rl, s.rateLimit = some rl → rl.remaining = 0 → s.now < rl.reset * 1000 →
      ∃ w tail, 0 < w ∧ rl.reset * 1000 ≤ s.now + w ∧
        (fetchPR env cfg s owner repo n).2.log
          = s.log ++ .wait w :: .netCall s.netCalls (s.now + w) :: tail)) ∧
    (((s.rateLimit = none ∨ ∃ rl, s.rateLimit = some rl ∧ 0 < rl.remaining) →
      ∃ tail, (fetchPRs env2 cfg s owner repo options).2.log
        = s.log ++ .netCall s.netCalls s.now :: tail) ∧
     (∀ rl, s.rateLimit = some rl → rl.remaining = 0 → s.now < rl.reset * 1000 →
      ∃ w tail, 0 < w ∧ rl.reset * 1000 ≤ s.now + w ∧
        (fetchPRs env2 cfg s owner repo options).2.log
          = s.log ++ .wait w :: .netCall s.netCalls (s.now + w) :: tail)) ∧
    (((s.rateLimit = none ∨ ∃ rl, s.rateLimit = some rl ∧ 0 < rl.remaining) →
      ∃ tail, (validateToken env3 cfg s).2.log
        = s.log ++ .netCall s.netCalls s.now :: tail) ∧
     (∀ rl, s.rateLimit = some rl → rl.remaining = 0 → s.now < rl.reset * 1000 →
      ∃ w tail, 0 < w ∧ rl.reset * 1000 ≤ s.now + w ∧
        (validateToken env3 cfg s).2.log
          = s.log ++ .wait w :: .netCall s.netCalls (s.now + w) :: tail)) := by
  obtain ⟨ov, hov⟩ := howner
  obtain ⟨rv, hrv⟩ := hrepo
  have hp1 : buildPRPath owner repo (some n) = .ok
      ("/repos/" ++ ov ++ "/" ++ rv ++ "/pulls/" ++ toString n) := by
    simp [buildPRPath, hov, hrv, sanitizePRNumber, (show ¬ n ≤ 0 by omega)]
  have hp2 : buildPRPath owner repo none = .ok ("/repos/" ++ ov ++ "/" ++ rv ++ "/pulls") := by
    simp [buildPRPath, hov, hrv]
  have e1 := fetchPR_state_eq env cfg s owner repo n hp1
  have l1 := request_log_cases env cfg s
    ("/repos/" ++ ov ++ "/" ++ rv ++ "/pulls/" ++ toString n) htoken
  rw [← e1] at l1
  obtain ⟨q, e2⟩ := fetchPRs_state_eq env2 cfg s owner repo options hp2
  have l2 := request_log_cases env2 cfg s q htoken
  rw [← e2] at l2
  have e3 := validateToken_state_eq env3 cfg s
  have l3 := request_log_cases env3 cfg s "/user" htoken
  rw [← e3] at l3
  exact ⟨l1, l2, l3⟩

/-- Claim C6: `fetchPR` returns `null` exactly for a NotFound outcome of its
try block, propagates every other failure, and never itself fails with a
NotFound error. -/
theorem fetchPR_notFound_is_null (env : Nat → NetworkEvent PRData)
    (cfg : GitHubConfig) (s : ClientState) (owner repo : String) (n : Int) :
    ((fetchPR env cfg s owner repo n).1 = .ok none ↔
      ∃ e, (fetchPRTry env cfg s owner repo n).1 = .error (.github e)
        ∧ e.kind = .notFound) ∧
    (∀ f, (fetchPRTry env cfg s owner repo n).1 = .error f →
      (∀ e, f = RequestFailure.github e → e.kind ≠ .notFound) →
      (fetchPR env cfg s owner repo n).1 = .error f) ∧
    (∀ e, (fetchPR env cfg s owner repo n).1 = .error (.github e) →
      e.kind ≠ .notFound) := by
  unfold fetchPR
  rcases htry : fetchPRTry env cfg s owner repo n with ⟨r, s1⟩
  rcases r with f | v
  · rcases f with e | nm
    · dsimp only
      by_cases hk : e.kind = ErrorKind.notFound
      · rw [if_pos (by simp [hk])]
        refine ⟨?_, ?_, ?_⟩
        · exact ⟨fun _ => ⟨e, rfl, hk⟩, fun _ => rfl⟩
        · intro f hf hne
          simp only [Except.error.injEq] at hf
          exact absurd hk (hne e hf.symm)
        · intro e2 he2
          exact absurd he2 (by simp)
      · rw [if_neg (by simp [hk])]
        refine ⟨?_, ?_, ?_⟩
        · constructor
          · intro h
            exact absurd h (by simp)
          · rintro ⟨e2, he2, hk2⟩
            simp only [Except.error.injEq, RequestFailure.github.injEq] at he2
            exact absurd (he2 ▸ hk2) hk
        · intro f hf hne
          simp only [Except.error.injEq] at hf
          rw [hf]
        · intro e2 he2
          simp only [Except.error.injEq, RequestFailure.github.injEq] at he2
          rw [← he2]
          exact hk
    · dsimp only
      refine ⟨by simp, ?_, by simp⟩
      intro f hf hne
      simp only [Except.error.injEq] at hf
      rw [hf]
  · dsimp only
    refine ⟨by simp, by simp, by simp⟩

/-- Claim C7: `validateToken` returns `true` on success, `false` exactly on an
Unauthorized outcome, and propagates every other failure. -/
theorem validateToken_unauthorized_is_false {T : Type} (env : Nat → NetworkEvent T)
    (cfg : GitHubConfig) (s : ClientState) :
    (∀ v, (request env cfg s "/user").1 = .ok v →
      (validateToken env cfg s).1 = .ok true) ∧
    ((validateToken env cfg s).1 = .ok false ↔
      ∃ e, (request env cfg s "/user").1 = .error (.github e)
        ∧ e.kind = .unauthorized) ∧
    (∀ f, (request env cfg s "/user").1 = .error f →
      (∀ e, f = RequestFailure.github e → e.kind ≠ .unauthorized) →
      (validateToken env cfg s).1 = .error f) := by
  unfold validateToken
  rcases hreq : request env cfg s "/user" with ⟨r, s1⟩
  rcases r with f | v
  · rcases f with e | nm
    · dsimp only
      by_cases hk : e.kind = ErrorKind.unauthorized
      · rw [if_pos (by simp [hk])]
        refine ⟨?_, ?_, ?_⟩
        · intro v hv
          exact absurd hv (by simp)
        · exact ⟨fun _ => ⟨e, rfl, hk⟩, fun _ => rfl⟩
        · intro f hf hne
          simp only [Except.error.injEq] at hf
          exact absurd hk (hne e hf.symm)
      · rw [if_neg (by simp [hk])]
        refine ⟨?_, ?_, ?_⟩
        · intro v hv
          exact absurd hv (by simp)
        · constructor
          · intro h
            exact absurd h (by simp)
          · rintro ⟨e2, he2, hk2⟩
            simp only [Except.error.injEq, RequestFailure.github.injEq] at he2
            exact absurd (he2 ▸ hk2) hk
        · intro f hf hne
          simp only [Except.error.injEq] at hf
          rw [hf]
    · dsimp only
      refine ⟨?_, ?_, ?_⟩
      · intro v hv
        exact absurd hv (by simp)
      · constructor
        · intro h
          exact absurd h (by simp)
        · rintro ⟨e2, he2, hk2⟩
          exact absurd he2 (by simp)
      · intro f hf hne
        simp only [Except.error.injEq] at hf
        rw [hf]
  · dsimp only
    refine ⟨?_, ?_, ?_⟩
    · intro v2 hv2
      rfl
    · constructor
      · intro h
        exact absurd h (by simp)
      · rintro ⟨e2, he2, hk2⟩
        exact absurd he2 (by simp)
    · intro f hf hne
      exact absurd hf (by simp)

theorem sanitizeIdentifier_error_shape {v f : String} {e : GitHubRequestError}
    (h : sanitizeIdentifier v f = .error e) :
    e.kind = .generic ∧ e.status = 422 ∧ e.statusText = "Unprocessable Entity" := by
  unfold sanitizeIdentifier at h
  dsimp only at h
  split_ifs at h <;>
    first
    | (injection h with h2
       rw [← h2]
       exact ⟨rfl, rfl, rfl⟩)
    | simp at h

theorem sanitizePRNumber_error_shape {n : Int} {e : GitHubRequestError}
    (h : sanitizePRNumber n = .error e) :
    e.kind = .generic ∧ e.status = 422 ∧ e.statusText = "Unprocessable Entity" := by
  unfold sanitizePRNumber at h
  split_ifs at h <;>
    first
    | (injection h with h2
       rw [← h2]
       exact ⟨rfl, rfl, rfl⟩)
    | simp at h

theorem buildPRPath_error_shape {owner repo : String} {pn : Option Int}
    {e : GitHubRequestError} (h : buildPRPath owner repo pn = .error e) :
    e.kind = .generic ∧ e.status = 422 ∧ e.statusText = "Unprocessable Entity" := by
  unfold buildPRPath at h
  rcases ho : sanitizeIdentifier owner "owner" with eo | vo <;> rw [ho] at h
  · simp only [Except.error.injEq] at h
    exact h ▸ sanitizeIdentifier_error_shape ho
  · rcases hr : sanitizeIdentifier repo "repo" with er | vr <;> rw [hr] at h
    · simp only [Except.error.injEq] at h
      exact h ▸ sanitizeIdentifier_error_shape hr
    · rcases pn with _ | n
      · exact absurd h (by simp)
      · dsimp only at h
        rcases hn : sanitizePRNumber n with en | vn <;> rw [hn] at h
        · simp only [Except.error.injEq] at h
          exact h ▸ sanitizePRNumber_error_shape hn
        · exact absurd h (by simp)

theorem buildPRPath_error_of_invalid {owner repo : String} {n : Int}
    (hbad : (∃ e, sanitizeIdentifier owner "owner" = .error e) ∨
      (∃ e, sanitizeIdentifier repo "repo" = .error e) ∨ n ≤ 0) :
    ∃ e, buildPRPath owner repo (some n) = .error e := by
  rcases ho : sanitizeIdentifier owner "owner" with eo | vo
  · exact ⟨eo, by unfold buildPRPath; rw [ho]⟩
  · rcases hr : sanitizeIdentifier repo "repo" with er | vr
    · exact ⟨er, by unfold buildPRPath; rw [ho, hr]⟩
    · rcases hn : sanitizePRNumber n with en | vn
      · exact ⟨en, by unfold buildPRPath; rw [ho, hr]; simp only [hn]⟩
      · exfalso
        rcases hbad with ⟨e, he⟩ | ⟨e, he⟩ | hneg
        · rw [ho] at he
          exact absurd he (by simp)
        · rw [hr] at he
          exact absurd he (by simp)
        · unfold sanitizePRNumber at hn
          rw [if_pos hneg] at hn
          exact absurd hn (by simp)

/-- Claim C8 (amended): invalid owner/repo/number input makes `fetchPR` and
`fetchPRs` fail locally, before any network call and without touching the
client state, with a base-class `GitHubRequestError` (kind `generic`) carrying
status 422 — not with the `GitHubUnprocessableEntityError` subclass. -/
theorem fetchPR_invalid_input_local_422 (env : Nat → NetworkEvent PRData)
    (env2 : Nat → NetworkEvent (List PRData)) (cfg : GitHubConfig)
    (s : ClientState) (owner repo : String) (n : Int) (options : FetchPROptions)
    (hbad : (∃ e, sanitizeIdentifier owner "owner" = .error e) ∨
      (∃ e, sanitizeIdentifier repo "repo" = .error e) ∨ n ≤ 0) :
    (∃ e, (fetchPR env cfg s owner repo n).1 = .error (.github e) ∧
      e.kind = .generic ∧ e.status = 422 ∧ e.statusText = "Unprocessable Entity" ∧
      (fetchPR env cfg s owner repo n).2 = s) ∧
    ((∃ e, sanitizeIdentifier owner "owner" = .error e) ∨
      (∃ e, sanitizeIdentifier repo "repo" = .error e) →
      ∃ e, (fetchPRs env2 cfg s owner repo options).1 = .error (.github e) ∧
        e.kind = .generic ∧ e.status = 422 ∧ e.statusText = "Unprocessable Entity" ∧
        (fetchPRs env2 cfg s owner repo options).2 = s) := by
  constructor
  · obtain ⟨e, he⟩ := buildPRPath_error_of_invalid hbad
    have hsh := buildPRPath_error_shape he
    have hrun : fetchPR env cfg s owner repo n = (.error (.github e), s) := by
      unfold fetchPR fetchPRTry
      rw [he]
      dsimp only
      rw [if_neg (by simp [hsh.1])]
    exact ⟨e, by rw [hrun], hsh.1, hsh.2.1, hsh.2.2, by rw [hrun]⟩
  · intro hbad2
    have hbase : ∃ e, buildPRPath owner repo none = .error e := by
      rcases ho : sanitizeIdentifier owner "owner" with eo | vo
      · exact ⟨eo, by unfold buildPRPath; rw [ho]⟩
      · rcases hr : sanitizeIdentifier repo "repo" with er | vr
        · exact ⟨er, by unfold buildPRPath; rw [ho, hr]⟩
        · exfalso
          rcases hbad2 with ⟨e, he⟩ | ⟨e, he⟩
          · rw [ho] at he
            exact absurd he (by simp)
          · rw [hr] at he
            exact absurd he (by simp)
    obtain ⟨e, he⟩ := hbase
    have hsh := buildPRPath_error_shape he
    have hrun : fetchPRs env2 cfg s owner repo options = (.error (.github e), s) := by
      unfold fetchPRs
      rw [he]
    exact ⟨e, by rw [hrun], hsh.1, hsh.2.1, hsh.2.2, by rw [hrun]⟩


theorem cacheGet_put_same (cache : List (String × CacheEntry)) (key : String)
    (entry : CacheEntry) (now : Int) :
    cacheGet (cachePut cache key entry) key now
      = if now < entry.expiresAt then some entry.result else none := by
  simp [cacheGet, cachePut, List.find?]

/-- A single successful attempt: `fetchPR` returns the parsed resource and
bumps the call counter once. -/
theorem fetchPR_ok_run (env : Nat → NetworkEvent PRData) (cfg : GitHubConfig)
    (s : ClientState) (owner repo : String) (n : Int) {p : String} (v : PRData)
    (hpath : buildPRPath owner repo (some n) = .ok p)
    (htoken : (cfg.token == "") = false)
    (hrl : s.rateLimit = none)
    (henv : env s.netCalls = .ok emptyHeaders v) :
    fetchPR env cfg s owner repo n
      = (.ok (some v), { s with
          netCalls := s.netCalls + 1,
          log := s.log ++ [LogEvent.netCall s.netCalls s.now] }) := by
  unfold fetchPR fetchPRTry
  rw [hpath]
  dsimp only
  rw [request_eq_of_token env cfg s p htoken]
  rw [show respectRateLimit s.rateLimit s.now = 0 by simp [respectRateLimit, hrl]]
  rw [if_neg (by omega : ¬ (0:Int) < 0)]
  rw [attemptRequest]
  rw [henv]
  rfl

/-- A single 404 attempt with a non-exhausted snapshot: `fetchPR` returns
`none` and bumps the call counter once. -/
theorem fetchPR_notFound_run (env : Nat → NetworkEvent PRData) (cfg : GitHubConfig)
    (s : ClientState) (owner repo : String) (n : Int) {p : String} (msg st : String)
    (hpath : buildPRPath owner repo (some n) = .ok p)
    (htoken : (cfg.token == "") = false)
    (hrl : s.rateLimit = none)
    (henv : env s.netCalls = .httpError emptyHeaders 404 msg st none) :
    fetchPR env cfg s owner repo n
      = (.ok none, { s with
          netCalls := s.netCalls + 1,
          log := s.log ++ [LogEvent.netCall s.netCalls s.now] }) := by
  have hsr : shouldRetry (some (createErrorForStatus 404 msg st none)) 1
      (updateRateLimitFromHeaders emptyHeaders s.rateLimit) = false := by
    simp [shouldRetry, createErrorForStatus, rateLimitExhausted, MAX_RETRIES,
      updateRateLimitFromHeaders, emptyHeaders, parseNumber, hrl]
  unfold fetchPR fetchPRTry
  rw [hpath]
  dsimp only
  rw [request_eq_of_token env cfg s p htoken]
  rw [show respectRateLimit s.rateLimit s.now = 0 by simp [respectRateLimit, hrl]]
  rw [if_neg (by omega : ¬ (0:Int) < 0)]
  rw [attemptRequest]
  rw [henv]
  dsimp only
  simp [createErrorForStatus, shouldRetry, rateLimitExhausted, MAX_RETRIES, hrl,
    updateRateLimitFromHeaders, parseNumber, emptyHeaders]

/-- Claim C1 (spec-modelled cache): within the TTL, a second identical fetch
is served from the cache — one network call in total — and returns the same
result, both for found and for not-found outcomes. -/
theorem cachedFetchPR_hits_cache_within_ttl (cfg : CachedGitHubConfig)
    (s : CachedClientState) (owner repo : String) (n : Int) {p : String}
    (hcache : cfg.cacheEnabled = true) (httl : 0 < cfg.cacheTTL)
    (htoken : (cfg.base.token == "") = false)
    (hrl : s.base.rateLimit = none)
    (hmiss : cacheGet s.cache (cacheKey owner repo n) s.base.now = none)
    (hpath : buildPRPath owner repo (some n) = .ok p) :
    (∀ (v : PRData) (env : Nat → NetworkEvent PRData),
      (∀ i, env i = .ok emptyHeaders v) →
      (cachedFetchPR env cfg s owner repo n).1 = .ok (some v) ∧
      (cachedFetchPR env cfg (cachedFetchPR env cfg s owner repo n).2
        owner repo n).1 = .ok (some v) ∧
      (cachedFetchPR env cfg (cachedFetchPR env cfg s owner repo n).2
        owner repo n).2.base.netCalls = s.base.netCalls + 1) ∧
    (∀ (msg st : String) (env : Nat → NetworkEvent PRData),
      (∀ i, env i = .httpError emptyHeaders 404 msg st none) →
      (cachedFetchPR env cfg s owner repo n).1 = .ok none ∧
      (cachedFetchPR env cfg (cachedFetchPR env cfg s owner repo n).2
        owner repo n).1 = .ok none ∧
      (cachedFetchPR env cfg (cachedFetchPR env cfg s owner repo n).2
        owner repo n).2.base.netCalls = s.base.netCalls + 1) := by
  constructor
  · intro v env henv
    have h1 := fetchPR_ok_run env cfg.base s.base owner repo n v hpath htoken hrl (henv _)
    have hc1 : cachedFetchPR env cfg s owner repo n
        = (.ok (some v), ⟨{ s.base with
            netCalls := s.base.netCalls + 1,
            log := s.base.log ++ [LogEvent.netCall s.base.netCalls s.base.now] },
            cachePut s.cache (cacheKey owner repo n)
              ⟨.found v, s.base.now + cfg.cacheTTL⟩⟩) := by
      unfold cachedFetchPR
      rw [hcache]
      dsimp only
      rw [hmiss]
      dsimp only
      rw [h1]
      rfl
    have hc2 : cachedFetchPR env cfg (cachedFetchPR env cfg s owner repo n).2
        owner repo n = (.ok (some v), (cachedFetchPR env cfg s owner repo n).2) := by
      rw [hc1]
      unfold cachedFetchPR
      rw [hcache]
      dsimp only
      rw [cacheGet_put_same]
      have hcond : s.base.now < s.base.now + cfg.cacheTTL := by omega
      simp [hcond]
    rw [hc1] at hc2
    refine ⟨by rw [hc1], ?_, ?_⟩
    · rw [hc1, hc2]
    · rw [hc1, hc2]
  · intro msg st env henv
    have h1 := fetchPR_notFound_run env cfg.base s.base owner repo n msg st hpath
      htoken hrl (henv _)
    have hc1 : cachedFetchPR env cfg s owner repo n
        = (.ok none, ⟨{ s.base with
            netCalls := s.base.netCalls + 1,
            log := s.base.log ++ [LogEvent.netCall s.base.netCalls s.base.now] },
            cachePut s.cache (cacheKey owner repo n)
              ⟨.notFound, s.base.now + cfg.cacheTTL⟩⟩) := by
      unfold cachedFetchPR
      rw [hcache]
      dsimp only
      rw [hmiss]
      dsimp only
      rw [h1]
      rfl
    have hc2 : cachedFetchPR env cfg (cachedFetchPR env cfg s owner repo n).2
        owner repo n = (.ok none, (cachedFetchPR env cfg s owner repo n).2) := by
      rw [hc1]
      unfold cachedFetchPR
      rw [hcache]
      dsimp only
      rw [cacheGet_put_same]
      have hcond : s.base.now < s.base.now + cfg.cacheTTL := by omega
      simp [hcond]
    rw [hc1] at hc2
    refine ⟨by rw [hc1], ?_, ?_⟩
    · rw [hc1, hc2]
    · rw [hc1, hc2]


/-- Claim C2 (amended): an attempt classified Unauthorized, NotFound or
UnprocessableInput makes exactly one network attempt — provided the
rate-limit snapshot (after the response's header update) does not show
exactly zero remaining quota; `shouldRetry` is `false` for these kinds
then. -/
theorem nonretryable_kinds_single_attempt {T : Type} (env : Nat → NetworkEvent T)
    (cfg : GitHubConfig) (s : ClientState) (path : String)
    (hdrs : ResponseHeaders) (status : Int) (msg st : String)
    (docUrl : Option String)
    (htoken : (cfg.token == "") = false)
    (hevt : env s.netCalls = .httpError hdrs status msg st docUrl)
    (hstatus : status = 401 ∨ status = 404 ∨ status = 422)
    (hrem : rateLimitExhausted (updateRateLimitFromHeaders hdrs s.rateLimit) = false) :
    (request env cfg s path).2.netCalls = s.netCalls + 1 ∧
    (request env cfg s path).1
      = .error (.github (createErrorForStatus status msg st docUrl)) ∧
    shouldRetry (some (createErrorForStatus status msg st docUrl)) 1
      (updateRateLimitFromHeaders hdrs s.rateLimit) = false := by
  have hsr : shouldRetry (some (createErrorForStatus status msg st docUrl)) 1
      (updateRateLimitFromHeaders hdrs s.rateLimit) = false := by
    rcases hstatus with h | h | h <;> subst h <;>
      simp [shouldRetry, createErrorForStatus, MAX_RETRIES, hrem]
  by_cases hw : 0 < respectRateLimit s.rateLimit s.now
  · rw [request_eq_of_token env cfg s path htoken]
    rw [if_pos hw]
    rw [attemptRequest]
    simp [delayAndLog, hevt, hsr]
  · rw [request_eq_of_token env cfg s path htoken]
    rw [if_neg hw]
    rw [attemptRequest]
    simp [delayAndLog, hevt, hsr]

/-- Claim C2 counterexample: with a snapshot showing zero remaining quota, a
NotFound-classified attempt IS retried (`shouldRetry` returns `true`), and a
request against a server that always answers 404 makes 7 network attempts,
not one. -/
theorem shouldRetry_notFound_quota_zero_cex :
    shouldRetry (some (createErrorForStatus 404 "Not Found" "Not Found" none)) 1
        (some exhaustedSnapshot) = true ∧
    ¬((request notFoundEnv sampleConfig exhaustedState "/repos/a/b/pulls/1").2.netCalls
        = 1) := by
  constructor
  · decide
  · have h : (request notFoundEnv sampleConfig exhaustedState
        "/repos/a/b/pulls/1").2.netCalls = 7 := by
      simp [request, attemptRequest, notFoundEnv, sampleConfig, exhaustedState,
        exhaustedSnapshot, shouldRetry, rateLimitExhausted, createErrorForStatus,
        updateRateLimitFromHeaders, parseNumber, emptyHeaders, nextBackoffDelay,
        respectRateLimit, delayAndLog, MAX_RETRIES, BASE_BACKOFF_MS]
    omega

/-- Claim C2 witness. -/
theorem nonretryable_kinds_single_attempt_witness :
    (request notFoundEnv sampleConfig freshState "/repos/a/b/pulls/1").2.netCalls
        = freshState.netCalls + 1 ∧
    (request notFoundEnv sampleConfig freshState "/repos/a/b/pulls/1").1
        = .error (.github (createErrorForStatus 404 "Not Found" "Not Found" none)) ∧
    shouldRetry (some (createErrorForStatus 404 "Not Found" "Not Found" none)) 1
        (updateRateLimitFromHeaders emptyHeaders freshState.rateLimit) = false :=
  nonretryable_kinds_single_attempt notFoundEnv sampleConfig freshState
    "/repos/a/b/pulls/1" emptyHeaders 404 "Not Found" "Not Found" none
    (by decide) rfl (Or.inr (Or.inl rfl)) (by decide)

/-- Claim C3: against a server that returns HTTP 500 on every attempt, the
retry structure makes 7 network attempts in total — each recursion level
retries once from its `try` path and once more when the child's exhausted
error re-enters its `catch` — exceeding the claimed ceiling of 3. -/
theorem attemptRequest_seven_attempts_on_persistent_500 :
    (request serverErrorEnv sampleConfig freshState "/repos/a/b/pulls/1").2.netCalls = 7 ∧
    ¬((request serverErrorEnv sampleConfig freshState "/repos/a/b/pulls/1").2.netCalls
        ≤ 3) := by
  have h : (request serverErrorEnv sampleConfig freshState
      "/repos/a/b/pulls/1").2.netCalls = 7 := by
    simp [request, attemptRequest, serverErrorEnv, sampleConfig, freshState,
      shouldRetry, rateLimitExhausted, createErrorForStatus,
      updateRateLimitFromHeaders, parseNumber, emptyHeaders, nextBackoffDelay,
      respectRateLimit, delayAndLog, MAX_RETRIES, BASE_BACKOFF_MS]
  exact ⟨h, by omega⟩

/-- Claim C4: the backoff delay is `1000 * 2 ^ (attempt - 1)` when the
snapshot is absent or not exhausted, and `max(reset * 1000 - now, backoff)`
when it shows zero remaining quota — never sooner than the stated reset. -/
theorem nextBackoffDelay_spec (attempt : Nat) (h : 1 ≤ attempt)
    (rl : RateLimitInfo) (now : Int) :
    nextBackoffDelay attempt none now = 1000 * 2 ^ (attempt - 1) ∧
    (rl.remaining ≠ 0 →
      nextBackoffDelay attempt (some rl) now = 1000 * 2 ^ (attempt - 1)) ∧
    (rl.remaining = 0 →
      nextBackoffDelay attempt (some rl) now
          = max (rl.reset * 1000 - now) (1000 * 2 ^ (attempt - 1)) ∧
        rl.reset * 1000 ≤ now + nextBackoffDelay attempt (some rl) now) := by
  refine ⟨rfl, fun hne => ?_, fun he => ⟨?_, ?_⟩⟩
  · simp [nextBackoffDelay, BASE_BACKOFF_MS, hne]
  · simp [nextBackoffDelay, BASE_BACKOFF_MS, he]
  · have hle := le_max_left (rl.reset * 1000 - now) ((1000 : Int) * 2 ^ (attempt - 1))
    simp only [nextBackoffDelay, BASE_BACKOFF_MS, he]
    simp only [beq_self_eq_true, if_true]
    linarith

/-- Claim C4 witness. -/
theorem nextBackoffDelay_spec_witness :
    nextBackoffDelay 2 none 3 = 1000 * 2 ^ (2 - 1) ∧
    (nextBackoffDelay 2 (some ⟨5000, 0, 10, 5000⟩) 3
        = max ((10 : Int) * 1000 - 3) (1000 * 2 ^ (2 - 1)) ∧
      (10 : Int) * 1000 ≤ 3 + nextBackoffDelay 2 (some ⟨5000, 0, 10, 5000⟩) 3) :=
  ⟨(nextBackoffDelay_spec 2 (by omega) ⟨5000, 0, 10, 5000⟩ 3).1,
   (nextBackoffDelay_spec 2 (by omega) ⟨5000, 0, 10, 5000⟩ 3).2.2 rfl⟩

/-- Claim C9: the snapshot update is a no-op when any of limit, remaining or
reset is missing or non-numeric; otherwise it overwrites the snapshot, with
`used` defaulting to `limit - remaining` when the used header is absent. -/
theorem updateRateLimitFromHeaders_spec (headers : ResponseHeaders)
    (rl : Option RateLimitInfo) :
    ((parseNumber headers.limit = none ∨ parseNumber headers.remaining = none ∨
        parseNumber headers.reset = none) →
      updateRateLimitFromHeaders headers rl = rl) ∧
    (∀ l r t, parseNumber headers.limit = some l →
      parseNumber headers.remaining = some r → parseNumber headers.reset = some t →
      ((headers.used = none →
          updateRateLimitFromHeaders headers rl = some ⟨l, r, t, l - r⟩) ∧
       (∀ u, headers.used = some (.num u) →
          updateRateLimitFromHeaders headers rl = some ⟨l, r, t, u⟩))) := by
  constructor
  · intro hmiss
    rcases h1 : parseNumber headers.limit with _ | l
    · simp [updateRateLimitFromHeaders, h1]
    · rcases h2 : parseNumber headers.remaining with _ | r
      · simp [updateRateLimitFromHeaders, h1, h2]
      · rcases h3 : parseNumber headers.reset with _ | t
        · simp [updateRateLimitFromHeaders, h1, h2, h3]
        · exfalso
          rcases hmiss with h | h | h
          · rw [h1] at h
            exact absurd h (by simp)
          · rw [h2] at h
            exact absurd h (by simp)
          · rw [h3] at h
            exact absurd h (by simp)
  · intro l r t h1 h2 h3
    constructor
    · intro hu
      have hu2 : parseNumber headers.used = none := by rw [hu]; rfl
      simp [updateRateLimitFromHeaders, h1, h2, h3, hu2]
    · intro u hu
      have hu2 : parseNumber headers.used = some u := by rw [hu]; rfl
      simp [updateRateLimitFromHeaders, h1, h2, h3, hu2]

/-- Claim C9 witness. -/
theorem updateRateLimitFromHeaders_spec_witness :
    updateRateLimitFromHeaders
        ⟨some .nan, some (.num 4999), some (.num 1700000000), none⟩
        (some ⟨5000, 1, 2, 3⟩) = some ⟨5000, 1, 2, 3⟩ ∧
    updateRateLimitFromHeaders
        ⟨some (.num 5000), some (.num 4999), some (.num 1700000000), none⟩
        none = some ⟨5000, 4999, 1700000000, 1⟩ := by
  constructor
  · exact (updateRateLimitFromHeaders_spec _ _).1 (Or.inl rfl)
  · have h := ((updateRateLimitFromHeaders_spec
      ⟨some (.num 5000), some (.num 4999), some (.num 1700000000), none⟩
      none).2 5000 4999 1700000000 rfl rfl rfl).1 rfl
    simpa using h

/-- Claim C5 witness. -/
theorem clientOps_respectRateLimit_witness :
    (∃ tail, (fetchPR okEnv sampleConfig freshState "cheefbird" "patty-pr-minder" 1).2.log
      = freshState.log
        ++ LogEvent.netCall freshState.netCalls freshState.now :: tail) ∧
    (∃ w tail, 0 < w ∧ (2 : Int) * 1000 ≤ exhaustedFutureState.now + w ∧
      (validateToken okEnv sampleConfig exhaustedFutureState).2.log
        = exhaustedFutureState.log ++ LogEvent.wait w ::
            LogEvent.netCall exhaustedFutureState.netCalls
              (exhaustedFutureState.now + w) :: tail) := by
  constructor
  · exact (clientOps_respectRateLimit okEnv okListEnv okEnv sampleConfig freshState
      "cheefbird" "patty-pr-minder" 1 ⟨none, none, none⟩ (by decide)
      ⟨"cheefbird", rfl⟩ ⟨"patty-pr-minder", rfl⟩
      (by omega)).1.1 (Or.inl rfl)
  · exact (clientOps_respectRateLimit okEnv okListEnv okEnv sampleConfig
      exhaustedFutureState "cheefbird" "patty-pr-minder" 1 ⟨none, none, none⟩
      (by decide) ⟨"cheefbird", rfl⟩ ⟨"patty-pr-minder", rfl⟩
      (by omega)).2.2.2 ⟨5000, 0, 2, 5000⟩ rfl rfl (by decide)

/-- Claim C6 witness. -/
theorem fetchPR_notFound_is_null_witness :
    (fetchPR notFoundEnv sampleConfig freshState "cheefbird" "patty-pr-minder" 999).1
      = .ok none := by
  apply (fetchPR_notFound_is_null notFoundEnv sampleConfig freshState "cheefbird"
    "patty-pr-minder" 999).1.mpr
  refine ⟨createErrorForStatus 404 "Not Found" "Not Found" none, ?_, rfl⟩
  have hpath : buildPRPath "cheefbird" "patty-pr-minder" (some 999)
      = .ok "/repos/cheefbird/patty-pr-minder/pulls/999" := rfl
  unfold fetchPRTry
  rw [hpath]
  simp [request, attemptRequest, notFoundEnv, sampleConfig, freshState,
    respectRateLimit, shouldRetry, rateLimitExhausted, createErrorForStatus,
    updateRateLimitFromHeaders, parseNumber, emptyHeaders, MAX_RETRIES,
    delayAndLog]

/-- Claim C7 witness. -/
theorem validateToken_unauthorized_is_false_witness :
    (validateToken unauthorizedEnv sampleConfig freshState).1 = .ok false := by
  apply (validateToken_unauthorized_is_false unauthorizedEnv sampleConfig
    freshState).2.1.mpr
  refine ⟨createErrorForStatus 401 "Bad credentials" "Unauthorized" none, ?_, rfl⟩
  simp [request, attemptRequest, unauthorizedEnv, sampleConfig, freshState,
    respectRateLimit, shouldRetry, rateLimitExhausted, createErrorForStatus,
    updateRateLimitFromHeaders, parseNumber, emptyHeaders, MAX_RETRIES,
    delayAndLog]

/-- Claim C8 counterexample: the locally raised validation error is the base
class `GitHubRequestError` (kind `generic`, status 422), not the
`GitHubUnprocessableEntityError` subclass, and no network call is made. -/
theorem sanitize_error_is_base_class_cex :
    (fetchPR notFoundEnv sampleConfig freshState "owner!" "repo" 1).1
      = .error (.github ⟨.generic, "owner contains invalid characters.", 422,
          "Unprocessable Entity", none⟩) ∧
    (fetchPR notFoundEnv sampleConfig freshState "owner!" "repo" 1).2 = freshState ∧
    ErrorKind.generic ≠ ErrorKind.unprocessableEntity := by
  refine ⟨rfl, rfl, by decide⟩

/-- Claim C8 witness. -/
theorem fetchPR_invalid_input_local_422_witness :
    ∃ e, (fetchPR notFoundEnv sampleConfig freshState "bad owner" "repo" 1).1
        = .error (.github e) ∧
      e.kind = .generic ∧ e.status = 422 ∧ e.statusText = "Unprocessable Entity" ∧
      (fetchPR notFoundEnv sampleConfig freshState "bad owner" "repo" 1).2
        = freshState :=
  (fetchPR_invalid_input_local_422 notFoundEnv okListEnv sampleConfig freshState
    "bad owner" "repo" 1 ⟨none, none, none⟩
    (Or.inl ⟨⟨.generic, "owner contains invalid characters.", 422,
      "Unprocessable Entity", none⟩, rfl⟩)).1

/-- Claim C1 witness. -/
theorem cachedFetchPR_hits_cache_within_ttl_witness :
    (cachedFetchPR okEnv cachedSampleConfig freshCachedState "cheefbird"
        "patty-pr-minder" 1).1 = .ok (some samplePR) ∧
    (cachedFetchPR okEnv cachedSampleConfig
        (cachedFetchPR okEnv cachedSampleConfig freshCachedState "cheefbird"
          "patty-pr-minder" 1).2 "cheefbird" "patty-pr-minder" 1).1
      = .ok (some samplePR) ∧
    (cachedFetchPR okEnv cachedSampleConfig
        (cachedFetchPR okEnv cachedSampleConfig freshCachedState "cheefbird"
          "patty-pr-minder" 1).2 "cheefbird" "patty-pr-minder" 1).2.base.netCalls
      = freshCachedState.base.netCalls + 1 :=
  (cachedFetchPR_hits_cache_within_ttl cachedSampleConfig freshCachedState
    "cheefbird" "patty-pr-minder" 1 rfl (by decide) (by decide) rfl rfl
    (rfl : buildPRPath "cheefbird" "patty-pr-minder" (some 1)
      = .ok "/repos/cheefbird/patty-pr-minder/pulls/1")).1 samplePR okEnv
    (fun _ => rfl)

end GithubClient

namespace PRUtils

theorem isSegmentChar_not_ws (c : Char) (h : isSegmentChar c = true) :
    c.isWhitespace = false := by
  by_contra hw
  rw [Bool.not_eq_false] at hw
  have hc : c = ' ' ∨ c = '\t' ∨ c = '\r' ∨ c = '\n' := by
    simpa [Char.isWhitespace, or_assoc] using hw
  rcases hc with h1 | h1 | h1 | h1 <;> subst h1 <;> exact absurd h (by decide)

theorem isAlphanum_isSegmentChar (c : Char) (h : c.isAlphanum = true) :
    isSegmentChar c = true := by
  simp [isSegmentChar, h]

theorem segmentShape_mem {k : Nat} {cs : List Char} (h : segmentShape k cs = true) :
    ∀ x ∈ cs, isSegmentChar x = true := by
  match cs with
  | [] => simp [segmentShape] at h
  | [c] =>
    intro x hx
    rw [List.mem_singleton] at hx
    subst hx
    exact isAlphanum_isSegmentChar x (by simpa [segmentShape] using h)
  | c :: c2 :: rest =>
    simp only [segmentShape, Bool.and_eq_true] at h
    obtain ⟨⟨⟨h1, _h2⟩, h3⟩, h4⟩ := h
    intro x hx
    rcases List.mem_cons.mp hx with hx | hx
    · subst hx
      exact isAlphanum_isSegmentChar x h1
    · have hne : (c2 :: rest) ≠ [] := by simp
      have hsplit := List.dropLast_append_getLast hne
      rw [← hsplit] at hx
      rcases List.mem_append.mp hx with hx | hx
      · exact (List.all_eq_true.mp h3) x hx
      · rw [List.mem_singleton] at hx
        subst hx
        apply isAlphanum_isSegmentChar
        rw [List.getLast?_eq_getLast _ hne] at h4
        exact h4

theorem dropWhile_not_ws_id {l : List Char} (h : ∀ x ∈ l, x.isWhitespace = false) :
    l.dropWhile Char.isWhitespace = l := by
  cases l with
  | nil => rfl
  | cons a t =>
    rw [List.dropWhile_cons, if_neg]
    simp [h a (List.mem_cons_self a t)]

theorem trimChars_eq_self {cs : List Char} (h : ∀ x ∈ cs, x.isWhitespace = false) :
    trimChars cs = cs := by
  unfold trimChars
  rw [dropWhile_not_ws_id h]
  rw [dropWhile_not_ws_id (fun x hx => h x (List.mem_reverse.mp hx))]
  exact List.reverse_reverse cs

theorem execPRUrlPattern_shapes {cs : List Char} {o r d : List Char}
    (h : execPRUrlPattern cs = some (o, r, d)) :
    segmentShape 38 o = true ∧ segmentShape 99 r = true := by
  unfold execPRUrlPattern at h
  dsimp only at h
  split at h
  · exact absurd h (by simp)
  · split at h
    · exact absurd h (by simp)
    · split at h
      · split at h
        · split at h
          · split at h
            · split at h
              · exact absurd h (by simp)
              · split at h
                · simp only [Option.some.injEq, Prod.mk.injEq] at h
                  obtain ⟨ho, hr, _⟩ := h
                  subst ho
                  subst hr
                  constructor <;> assumption
                · exact absurd h (by simp)
            · exact absurd h (by simp)
          · exact absurd h (by simp)
        · exact absurd h (by simp)
      · exact absurd h (by simp)

theorem bitLenAux_zero (fuel : Nat) : bitLenAux fuel 0 = 0 := by
  cases fuel <;> simp [bitLenAux]

theorem bitLenAux_spec : ∀ (fuel n : Nat), 0 < n → n < 2 ^ fuel →
    1 ≤ bitLenAux fuel n ∧ 2 ^ (bitLenAux fuel n - 1) ≤ n
      ∧ n < 2 ^ bitLenAux fuel n := by
  intro fuel
  induction fuel with
  | zero =>
    intro n h1 h2
    simp at h2
    omega
  | succ f ih =>
    intro n h1 h2
    rw [bitLenAux, if_neg (by omega)]
    by_cases hz : n / 2 = 0
    · have hn1 : n = 1 := by omega
      subst hn1
      rw [show (1 : Nat) / 2 = 0 from rfl, bitLenAux_zero]
      norm_num
    · have h1' : 0 < n / 2 := Nat.pos_of_ne_zero hz
      have h2' : n / 2 < 2 ^ f := by
        rw [pow_succ] at h2
        omega
      obtain ⟨ha, hb, hc⟩ := ih (n / 2) h1' h2'
      refine ⟨by omega, ?_, ?_⟩
      · have he : bitLenAux f (n / 2) + 1 - 1 = (bitLenAux f (n / 2) - 1) + 1 := by
          omega
        rw [he, pow_succ]
        omega
      · rw [pow_succ]
        omega

theorem digitCountAux_le : ∀ (fuel n d : Nat), 1 ≤ d → n < 10 ^ d →
    digitCountAux fuel n ≤ d := by
  intro fuel
  induction fuel with
  | zero =>
    intro n d h1 _
    simpa [digitCountAux] using h1
  | succ f ih =>
    intro n d h1 h2
    rw [digitCountAux]
    split
    · omega
    · rename_i hn
      push_neg at hn
      have hd2 : 2 ≤ d := by
        by_contra hlt
        have hd1 : d = 1 := by omega
        subst hd1
        simp at h2
        omega
      have hdiv : n / 10 < 10 ^ (d - 1) := by
        have hpow : 10 ^ d = 10 ^ (d - 1) * 10 := by
          rw [← pow_succ]
          congr 1
          omega
        rw [hpow] at h2
        omega
      have := ih (n / 10) (d - 1) (by omega) hdiv
      omega

theorem div_step_eq {step q x : Nat} (hstep : 0 < step) (hx : x < step) :
    (step * q + x) / step = q := by
  rw [Nat.mul_add_div hstep, Nat.div_eq_of_lt hx, Nat.add_zero]

theorem div_step_eq_succ {step q x : Nat} (hstep : 0 < step) (h1 : step ≤ x)
    (h2 : x < 2 * step) : (step * q + x) / step = q + 1 := by
  rw [Nat.mul_add_div hstep]
  congr 1
  exact Nat.div_eq_of_lt_le (by omega) (by omega)

theorem sRange_small {v g₁ g₂ : Nat} (hg₁ : 0 < g₁) (hg₁s : g₁ < SC)
    (hg₂ : 0 < g₂) (hg₂s : g₂ < SC) (hv : 0 < v) (cl : Bool) (j : Nat) :
    sRange (v * SC - g₁) (v * SC + g₂) cl j
      = if 10 ^ j ∣ v then some (v / 10 ^ j, v / 10 ^ j) else none := by
  have hT : 0 < 10 ^ j := pow_pos (by norm_num) j
  have hSC : 0 < SC := by norm_num [SC]
  have hstep : SC ≤ SC * 10 ^ j := Nat.le_mul_of_pos_right SC hT
  have hstep0 : 0 < SC * 10 ^ j := by positivity
  unfold sRange
  dsimp only
  by_cases hd : 10 ^ j ∣ v
  · rw [if_pos hd]
    obtain ⟨t, htv⟩ := hd
    have ht1 : 1 ≤ t := by
      rcases Nat.eq_zero_or_pos t with h | h
      · rw [h, Nat.mul_zero] at htv
        omega
      · exact h
    have hvt : v / 10 ^ j = t := by
      rw [htv, Nat.mul_div_cancel_left t hT]
    obtain ⟨t', rfl⟩ : ∃ t', t = t' + 1 := ⟨t - 1, by omega⟩
    have hvSC : v * SC = SC * 10 ^ j * t' + SC * 10 ^ j := by
      rw [htv]
      ring
    have d1 : (v * SC - g₁ + SC * 10 ^ j - 1) / (SC * 10 ^ j) = t' + 1 := by
      have e1 : v * SC - g₁ + SC * 10 ^ j - 1
          = SC * 10 ^ j * t' + (2 * (SC * 10 ^ j) - g₁ - 1) := by
        omega
      rw [e1, div_step_eq_succ hstep0 (by omega) (by omega)]
    have d2 : (v * SC - g₁) / (SC * 10 ^ j) + 1 = t' + 1 := by
      have e1 : v * SC - g₁ = SC * 10 ^ j * t' + (SC * 10 ^ j - g₁) := by
        omega
      rw [e1, div_step_eq hstep0 (by omega)]
    have d3 : (v * SC + g₂) / (SC * 10 ^ j) = t' + 1 := by
      have e1 : v * SC + g₂ = SC * 10 ^ j * t' + (SC * 10 ^ j + g₂) := by
        omega
      rw [e1, div_step_eq_succ hstep0 (by omega) (by omega)]
    have d4 : (v * SC + g₂ - 1) / (SC * 10 ^ j) = t' + 1 := by
      have e1 : v * SC + g₂ - 1 = SC * 10 ^ j * t' + (SC * 10 ^ j + g₂ - 1) := by
        omega
      rw [e1, div_step_eq_succ hstep0 (by omega) (by omega)]
    rw [d1, d2, d3, d4, ite_self, hvt, if_pos ⟨by omega, le_refl _⟩]
  · rw [if_neg hd]
    have hρ : 0 < v % 10 ^ j := by
      rcases Nat.eq_zero_or_pos (v % 10 ^ j) with h | h
      · exact absurd (Nat.dvd_of_mod_eq_zero h) hd
      · exact h
    have hρ2 : v % 10 ^ j < 10 ^ j := Nat.mod_lt v hT
    have hvSC : v * SC = SC * 10 ^ j * (v / 10 ^ j) + v % 10 ^ j * SC := by
      calc v * SC = (10 ^ j * (v / 10 ^ j) + v % 10 ^ j) * SC := by
            rw [Nat.div_add_mod v (10 ^ j)]
        _ = SC * 10 ^ j * (v / 10 ^ j) + v % 10 ^ j * SC := by ring
    have hρSClo : SC ≤ v % 10 ^ j * SC := Nat.le_mul_of_pos_left SC hρ
    have hρSChi : v % 10 ^ j * SC + SC ≤ SC * 10 ^ j := by
      calc v % 10 ^ j * SC + SC = (v % 10 ^ j + 1) * SC := by ring
        _ ≤ 10 ^ j * SC := Nat.mul_le_mul_right SC (by omega)
        _ = SC * 10 ^ j := Nat.mul_comm _ _
    have d1 : (v * SC - g₁ + SC * 10 ^ j - 1) / (SC * 10 ^ j) = v / 10 ^ j + 1 := by
      have e1 : v * SC - g₁ + SC * 10 ^ j - 1
          = SC * 10 ^ j * (v / 10 ^ j)
            + (v % 10 ^ j * SC - g₁ + SC * 10 ^ j - 1) := by
        omega
      rw [e1, div_step_eq_succ hstep0 (by omega) (by omega)]
    have d2 : (v * SC - g₁) / (SC * 10 ^ j) + 1 = v / 10 ^ j + 1 := by
      have e1 : v * SC - g₁
          = SC * 10 ^ j * (v / 10 ^ j) + (v % 10 ^ j * SC - g₁) := by
        omega
      rw [e1, div_step_eq hstep0 (by omega)]
    have d3 : (v * SC + g₂) / (SC * 10 ^ j) = v / 10 ^ j := by
      have e1 : v * SC + g₂
          = SC * 10 ^ j * (v / 10 ^ j) + (v % 10 ^ j * SC + g₂) := by
        omega
      rw [e1, div_step_eq hstep0 (by omega)]
    have d4 : (v * SC + g₂ - 1) / (SC * 10 ^ j) = v / 10 ^ j := by
      have e1 : v * SC + g₂ - 1
          = SC * 10 ^ j * (v / 10 ^ j) + (v % 10 ^ j * SC + g₂ - 1) := by
        omega
      rw [e1, div_step_eq hstep0 (by omega)]
    rw [d1, d2, d3, d4, ite_self, ite_self, if_neg (by omega)]

theorem pickS_self (a wS step : Nat) : pickS a a wS step = a := by
  unfold pickS
  dsimp only
  rw [Nat.max_eq_right (Nat.min_le_right _ _), Nat.max_eq_right (Nat.min_le_right _ _)]
  simp

theorem shortestFrom_small {v g₁ g₂ : Nat} (hg₁ : 0 < g₁) (hg₁s : g₁ < SC)
    (hg₂ : 0 < g₂) (hg₂s : g₂ < SC) (hv : 0 < v) (cl : Bool) :
    ∀ J, (shortestFrom (v * SC - g₁) (v * SC + g₂) (v * SC) cl J).1
        * 10 ^ (shortestFrom (v * SC - g₁) (v * SC + g₂) (v * SC) cl J).2 = v := by
  intro J
  induction J with
  | zero =>
    rw [shortestFrom, sRange_small hg₁ hg₁s hg₂ hg₂s hv cl 0,
      if_pos (by simp)]
    dsimp only
    rw [pickS_self]
    simp
  | succ j ih =>
    rw [shortestFrom, sRange_small hg₁ hg₁s hg₂ hg₂s hv cl (j + 1)]
    by_cases hd : 10 ^ (j + 1) ∣ v
    · rw [if_pos hd]
      dsimp only
      rw [pickS_self]
      exact Nat.div_mul_cancel hd
    · rw [if_neg hd]
      exact ih

theorem roundToDouble_small {v : Nat} (h : v < 2 ^ 53) : roundToDouble v = some v := by
  unfold roundToDouble
  rw [if_pos h]

theorem jsNumberToString_small {v : Nat} (h0 : 0 < v) (h53 : v < 2 ^ 53) :
    jsNumberToString (some v) = Nat.repr v := by
  have hlt : v < 2 ^ 7000 :=
    lt_of_lt_of_le h53 (Nat.pow_le_pow_right (by norm_num) (by norm_num))
  obtain ⟨hb1, hb2, hb3⟩ := bitLenAux_spec 7000 v h0 hlt
  have hm52 : bitLen v - 1 ≤ 52 := by
    by_contra hgt
    push_neg at hgt
    have : (2 : Nat) ^ 53 ≤ 2 ^ (bitLen v - 1) :=
      Nat.pow_le_pow_right (by norm_num) (by omega)
    have : (2 : Nat) ^ 53 ≤ v := le_trans this hb2
    omega
  have hri : roundingInterval v
      = (v * SC - (if v = 2 ^ (bitLen v - 1) then 2 ^ (bitLen v - 1 + 10)
            else 2 ^ (bitLen v - 1 + 11)),
        v * SC + 2 ^ (bitLen v - 1 + 11),
        (if bitLen v - 1 ≤ 52 then v * 2 ^ (52 - (bitLen v - 1))
            else v / 2 ^ (bitLen v - 1 - 52)) % 2 == 0) := rfl
  have hg₁ : 0 < (if v = 2 ^ (bitLen v - 1) then 2 ^ (bitLen v - 1 + 10)
      else 2 ^ (bitLen v - 1 + 11)) := by
    split <;> positivity
  have hg₁s : (if v = 2 ^ (bitLen v - 1) then 2 ^ (bitLen v - 1 + 10)
      else 2 ^ (bitLen v - 1 + 11)) < SC := by
    have h10 : (2 : Nat) ^ (bitLen v - 1 + 10) ≤ 2 ^ 62 :=
      Nat.pow_le_pow_right (by norm_num) (by omega)
    have h11 : (2 : Nat) ^ (bitLen v - 1 + 11) ≤ 2 ^ 63 :=
      Nat.pow_le_pow_right (by norm_num) (by omega)
    have hSC : SC = 2 ^ 64 := rfl
    split <;> [skip; skip] <;> rw [hSC] <;> omega
  have hg₂ : 0 < (2 : Nat) ^ (bitLen v - 1 + 11) := by positivity
  have hg₂s : (2 : Nat) ^ (bitLen v - 1 + 11) < SC := by
    have h11 : (2 : Nat) ^ (bitLen v - 1 + 11) ≤ 2 ^ 63 :=
      Nat.pow_le_pow_right (by norm_num) (by omega)
    have hSC : SC = 2 ^ 64 := rfl
    rw [hSC]
    omega
  rw [jsNumberToString]
  rw [if_neg (by omega)]
  dsimp only
  rw [hri]
  dsimp only
  have hsv := shortestFrom_small hg₁ hg₁s hg₂ hg₂s h0
    ((if bitLen v - 1 ≤ 52 then v * 2 ^ (52 - (bitLen v - 1))
        else v / 2 ^ (bitLen v - 1 - 52)) % 2 == 0) (digitCount v + 1)
  set sj := shortestFrom
      (v * SC - (if v = 2 ^ (bitLen v - 1) then 2 ^ (bitLen v - 1 + 10)
          else 2 ^ (bitLen v - 1 + 11)))
      (v * SC + 2 ^ (bitLen v - 1 + 11)) (v * SC)
      ((if bitLen v - 1 ≤ 52 then v * 2 ^ (52 - (bitLen v - 1))
          else v / 2 ^ (bitLen v - 1 - 52)) % 2 == 0)
      (digitCount v + 1) with hsjdef
  have hs0 : 0 < sj.1 := by
    rcases Nat.eq_zero_or_pos sj.1 with h | h
    · rw [h, Nat.zero_mul] at hsv
      omega
    · exact h
  have hv16 : v < 10 ^ 16 := lt_trans h53 (by norm_num)
  have hj15 : sj.2 < 16 := by
    by_contra hge
    push_neg at hge
    have h1 : (10 : Nat) ^ 16 ≤ 10 ^ sj.2 := Nat.pow_le_pow_right (by norm_num) hge
    have h2 : 10 ^ sj.2 ≤ sj.1 * 10 ^ sj.2 := Nat.le_mul_of_pos_left _ hs0
    omega
  have hslt : sj.1 < 10 ^ (16 - sj.2) := by
    have hpow : (10 : Nat) ^ (16 - sj.2) * 10 ^ sj.2 = 10 ^ 16 := by
      rw [← pow_add]
      congr 1
      omega
    have : sj.1 * 10 ^ sj.2 < 10 ^ (16 - sj.2) * 10 ^ sj.2 := by
      rw [hpow, hsv]
      exact hv16
    exact Nat.lt_of_mul_lt_mul_right this
  have hk : digitCount sj.1 ≤ 16 - sj.2 :=
    digitCountAux_le 400 sj.1 (16 - sj.2) (by omega) hslt
  rw [if_pos (by omega), hsv]

theorem digitChar_isDigit {n : Nat} (h : n < 10) : (Nat.digitChar n).isDigit = true := by
  interval_cases n <;> decide

theorem toDigitsCore_digits : ∀ (fuel n : Nat) (acc : List Char),
    (∀ c ∈ acc, c.isDigit = true) →
    ∀ c ∈ Nat.toDigitsCore 10 fuel n acc, c.isDigit = true := by
  intro fuel
  induction fuel with
  | zero =>
    intro n acc hacc
    rw [Nat.toDigitsCore]
    exact hacc
  | succ f ih =>
    intro n acc hacc
    rw [Nat.toDigitsCore]
    have hd : ∀ c ∈ (n % 10).digitChar :: acc, c.isDigit = true := by
      intro c hc
      rcases List.mem_cons.mp hc with h | h
      · subst h
        exact digitChar_isDigit (Nat.mod_lt n (by norm_num))
      · exact hacc c h
    split
    · exact hd
    · exact ih (n / 10) _ hd

theorem repr_digits (n : Nat) : ∀ c ∈ (Nat.repr n).toList, c.isDigit = true := by
  have he : (Nat.repr n).toList = Nat.toDigitsCore 10 (n + 1) n [] := rfl
  rw [he]
  exact toDigitsCore_digits (n + 1) n [] (by simp)

theorem isSegmentChar_ne_slash {c : Char} (h : isSegmentChar c = true) : c ≠ '/' := by
  intro he
  subst he
  exact absurd h (by decide)

theorem noSlash_append_inj : ∀ (a : List Char) {b t u : List Char},
    (∀ c ∈ a, c ≠ '/') → (∀ c ∈ b, c ≠ '/') →
    a ++ '/' :: t = b ++ '/' :: u → a = b ∧ t = u := by
  intro a
  induction a with
  | nil =>
    intro b t u _ hb h
    cases b with
    | nil => simpa using h
    | cons x xs =>
      simp only [List.nil_append, List.cons_append, List.cons.injEq] at h
      exact absurd h.1.symm (hb x (List.mem_cons_self x xs))
  | cons y ys ih =>
    intro b t u ha hb h
    cases b with
    | nil =>
      simp only [List.cons_append, List.nil_append, List.cons.injEq] at h
      exact absurd h.1 (ha y (List.mem_cons_self y ys))
    | cons x xs =>
      simp only [List.cons_append, List.cons.injEq] at h
      obtain ⟨hxy, h2⟩ := h
      obtain ⟨h3, h4⟩ := ih (fun c hc => ha c (List.mem_cons_of_mem y hc))
        (fun c hc => hb c (List.mem_cons_of_mem x hc)) h2
      exact ⟨by rw [hxy, h3], h4⟩

theorem toList_append (s t : String) : (s ++ t).toList = s.toList ++ t.toList := rfl

theorem matchPRComponents_prop {url : String} {info : PRUrlInfo}
    (h : matchPRComponents url = some info) :
    jsNumPos info.number = true ∧ isOwnerSegment info.owner = true
      ∧ isRepoSegment info.repo = true
      ∧ ∃ ds : List Char, info.number = roundToDouble (digitsToNat ds) := by
  unfold matchPRComponents at h
  dsimp only at h
  split at h
  · exact absurd h (by simp)
  · rename_i ownerCs repoCs digitCs heq
    split at h
    · rename_i hpos
      simp only [Option.some.injEq] at h
      obtain ⟨hsh38, hsh99⟩ := execPRUrlPattern_shapes heq
      have howner : trimChars ownerCs = ownerCs :=
        trimChars_eq_self (fun x hx =>
          isSegmentChar_not_ws x (segmentShape_mem hsh38 x hx))
      have hrepo : trimChars repoCs = repoCs :=
        trimChars_eq_self (fun x hx =>
          isSegmentChar_not_ws x (segmentShape_mem hsh99 x hx))
      rw [← h]
      refine ⟨hpos, ?_, ?_, digitCs, rfl⟩
      · show segmentShape 38 (String.mk (trimChars ownerCs)).toList = true
        rw [show (String.mk (trimChars ownerCs)).toList = trimChars ownerCs from rfl]
        rw [howner]
        exact hsh38
      · show segmentShape 99 (String.mk (trimChars repoCs)).toList = true
        rw [show (String.mk (trimChars repoCs)).toList = trimChars repoCs from rfl]
        rw [hrepo]
        exact hsh99
    · exact absurd h (by simp)

theorem parseGitHubPRUrl_imp {url : String} {info : PRUrlInfo}
    (h : parseGitHubPRUrl url = some info) :
    matchPRComponents (sanitizeUrl url) = some info := by
  unfold parseGitHubPRUrl at h
  split at h
  · exact absurd h (by simp)
  · split at h
    · exact absurd h (by simp)
    · exact h

theorem normalizeCandidateUrl_prop {raw : String} {u : String}
    (h : normalizeCandidateUrl raw = some u) : emittedPRUrl u := by
  unfold normalizeCandidateUrl at h
  dsimp only at h
  split at h
  · rename_i prInfo hparse
    simp only [Option.some.injEq] at h
    obtain ⟨hn, ho, hr, ds, hds⟩ := matchPRComponents_prop (parseGitHubPRUrl_imp hparse)
    refine ⟨prInfo.owner, prInfo.repo, ds, ho, hr, ?_, ?_⟩
    · rw [← hds]
      exact hn
    · rw [← h, hds]
  · exact absurd h (by simp)

theorem extractLoop_inv :
    ∀ (ms : List (List Char)) (results : List String), results.Nodup →
      (∀ u ∈ results, emittedPRUrl u) →
      (extractLoop ms results).Nodup ∧ ∀ u ∈ extractLoop ms results, emittedPRUrl u := by
  intro ms
  induction ms with
  | nil =>
    intro results h1 h2
    exact ⟨h1, h2⟩
  | cons m rest ih =>
    intro results h1 h2
    rw [extractLoop]
    cases hn : normalizeCandidateUrl (String.mk m) with
    | none => exact ih results h1 h2
    | some normalized =>
      dsimp only
      by_cases hmem : normalized ∈ results
      · rw [if_pos hmem]
        exact ih results h1 h2
      · rw [if_neg hmem]
        apply ih
        · rw [List.nodup_append]
          exact ⟨h1, List.nodup_singleton _, by
            intro a ha hb
            rw [List.mem_singleton] at hb
            exact hmem (hb ▸ ha)⟩
        · intro u hu
          rcases List.mem_append.mp hu with h | h
          · exact h2 u h
          · rw [List.mem_singleton] at h
            subst h
            exact normalizeCandidateUrl_prop hn

/-- Claim C10 (amended): for every input message the extracted list contains
no duplicates, and every element is
`https://github.com/{owner}/{repo}/pull/{t}` with owner and repo matching the
segment patterns and `t` the ECMAScript rendering of the positive double that
`parseInt` produced from a captured digit run; whenever that digit run's
exact value is below `2 ^ 53` the double is exact, `t` is its decimal
numeral, and the element is canonical. -/
theorem extractPRUrlsFromMessage_nodup_shape (text : String) :
    (extractPRUrlsFromMessage text).Nodup ∧
    ∀ u ∈ extractPRUrlsFromMessage text, ∃ owner repo : String, ∃ ds : List Char,
      isOwnerSegment owner = true ∧ isRepoSegment repo = true ∧
      jsNumPos (roundToDouble (digitsToNat ds)) = true ∧
      u = "https://github.com/" ++ owner ++ "/" ++ repo ++ "/pull/"
            ++ jsNumberToString (roundToDouble (digitsToNat ds)) ∧
      (digitsToNat ds < 2 ^ 53 → canonicalPRUrl u) := by
  have hbase : (extractPRUrlsFromMessage text).Nodup
      ∧ ∀ u ∈ extractPRUrlsFromMessage text, emittedPRUrl u := by
    unfold extractPRUrlsFromMessage
    dsimp only
    by_cases hc : ((trimChars text.toList).isEmpty
        || !(hasSubstrChars "github.com".toList (trimChars text.toList))) = true
    · rw [if_pos hc]
      simp
    · rw [if_neg hc]
      exact extractLoop_inv _ [] List.nodup_nil (by simp)
  refine ⟨hbase.1, ?_⟩
  intro u hu
  obtain ⟨o, r, ds, ho, hr, hpos, hueq⟩ := hbase.2 u hu
  refine ⟨o, r, ds, ho, hr, hpos, hueq, ?_⟩
  intro hsmall
  have hrd : roundToDouble (digitsToNat ds) = some (digitsToNat ds) :=
    roundToDouble_small hsmall
  have hv : 0 < digitsToNat ds := by
    rw [hrd] at hpos
    simpa [jsNumPos] using hpos
  refine ⟨o, r, digitsToNat ds, hv, ho, hr, ?_⟩
  rw [hueq, hrd, jsNumberToString_small hv hsmall]
  rfl

/-- Claim C10 (amended) witness. -/
theorem extractPRUrlsFromMessage_nodup_shape_witness :
    ∃ owner repo : String, ∃ ds : List Char,
      isOwnerSegment owner = true ∧ isRepoSegment repo = true ∧
      jsNumPos (roundToDouble (digitsToNat ds)) = true ∧
      "https://github.com/a/b/pull/7"
          = "https://github.com/" ++ owner ++ "/" ++ repo ++ "/pull/"
            ++ jsNumberToString (roundToDouble (digitsToNat ds)) ∧
      (digitsToNat ds < 2 ^ 53 → canonicalPRUrl "https://github.com/a/b/pull/7") :=
  (extractPRUrlsFromMessage_nodup_shape "see https://github.com/a/b/pull/7").2
    "https://github.com/a/b/pull/7" (by decide)

/-- Claim C10 counterexample: a 22-digit pull number rides through `parseInt`'s
IEEE double — `1e22`, which happens to be exactly representable — and the
template renders it in exponential notation, so the extractor emits
`https://github.com/a/b/pull/1e+22`, which is not `.../pull/{n}` for any
positive integer `n`. -/
theorem extractPRUrls_exponential_rendering_cex :
    extractPRUrlsFromMessage "https://github.com/a/b/pull/10000000000000000000000"
        = ["https://github.com/a/b/pull/1e+22"] ∧
      ¬ canonicalPRUrl "https://github.com/a/b/pull/1e+22" := by
  constructor
  · decide
  · rintro ⟨o, r, n, hn, ho, hr, heq⟩
    have hoSlash : ∀ c ∈ o.toList, c ≠ '/' := fun c hc =>
      isSegmentChar_ne_slash (segmentShape_mem ho c hc)
    have hrSlash : ∀ c ∈ r.toList, c ≠ '/' := fun c hc =>
      isSegmentChar_ne_slash (segmentShape_mem hr c hc)
    have hlist := congrArg String.toList heq
    simp only [toList_append] at hlist
    have hP : "https://github.com/".toList
        = 'h' :: 't' :: 't' :: 'p' :: 's' :: ':' :: '/' :: '/' :: 'g' :: 'i' :: 't'
          :: 'h' :: 'u' :: 'b' :: '.' :: 'c' :: 'o' :: 'm' :: '/' :: [] := rfl
    have hS : "/".toList = '/' :: [] := rfl
    have hPull : "/pull/".toList = '/' :: 'p' :: 'u' :: 'l' :: 'l' :: '/' :: [] := rfl
    have hL : "https://github.com/a/b/pull/1e+22".toList
        = 'h' :: 't' :: 't' :: 'p' :: 's' :: ':' :: '/' :: '/' :: 'g' :: 'i' :: 't'
          :: 'h' :: 'u' :: 'b' :: '.' :: 'c' :: 'o' :: 'm' :: '/' :: 'a' :: '/' :: 'b'
          :: '/' :: 'p' :: 'u' :: 'l' :: 'l' :: '/' :: '1' :: 'e' :: '+' :: '2'
          :: '2' :: [] := rfl
    rw [hP, hS, hPull, hL] at hlist
    simp only [List.cons_append, List.nil_append, List.append_assoc,
      List.cons.injEq, true_and] at hlist
    have h1 := noSlash_append_inj o.toList (b := 'a' :: [])
      (t := r.toList ++ '/' :: 'p' :: 'u' :: 'l' :: 'l' :: '/' :: (toString n).toList)
      (u := 'b' :: '/' :: 'p' :: 'u' :: 'l' :: 'l' :: '/' :: '1' :: 'e' :: '+'
        :: '2' :: '2' :: [])
      hoSlash (by decide) hlist.symm
    have h2 := noSlash_append_inj r.toList (b := 'b' :: [])
      (t := 'p' :: 'u' :: 'l' :: 'l' :: '/' :: (toString n).toList)
      (u := 'p' :: 'u' :: 'l' :: 'l' :: '/' :: '1' :: 'e' :: '+' :: '2' :: '2' :: [])
      hrSlash (by decide) h1.2
    have h3 := h2.2
    simp only [List.cons.injEq, true_and] at h3
    have hmem : 'e' ∈ (Nat.repr n).toList := by
      have hts : (toString n).toList = (Nat.repr n).toList := rfl
      rw [← hts, h3]
      simp
    exact absurd (repr_digits n 'e' hmem) (by decide)

end PRUtils
